import Mathlib

/-!
Verification of the redisplay/server core: the Schedule Evaluator
(src/models/viewTypes.js), the constrained-MTU chunker
(src/services/ble/ViewCharacteristic.js), the Broadcast Hub
(src/services/channelManager.js) and the Rotation Scheduler
(src/services/viewManager.js), shallowly embedded in Lean.

Channels, sink handles, client ids and origins (IP addresses) are
modelled as natural numbers; JavaScript Maps become functions into
Option, JavaScript Sets and the small per-channel Maps become lists.
-/

namespace Redisplay

/-- Pointwise update of a function, mirroring a JavaScript Map.set / Map.delete
(with an Option codomain) on a single key. -/
def fupd {α : Type} (f : Nat → α) (k : Nat) (v : α) : Nat → α :=
  fun x => if x = k then v else f x

/-- Membership-guarded append, mirroring JavaScript Set.add (no duplicates,
insertion order kept). -/
def sadd (l : List Nat) (x : Nat) : List Nat :=
  if x ∈ l then l else l ++ [x]

/-- Removal of an element, mirroring JavaScript Set.delete on a duplicate-free
list. -/
def serase (l : List Nat) (x : Nat) : List Nat :=
  l.filter (fun y => y ≠ x)

/-- Lookup in a small association list, mirroring Map.get on the per-channel
maps (override timestamps, activation times). -/
def alookup {α : Type} (l : List (Nat × α)) (k : Nat) : Option α :=
  (l.find? (fun p => p.1 = k)).map (fun p => p.2)

/-- Map.set on a small association list: replaces the binding in place if the
key is present, otherwise appends it. -/
def aset {α : Type} (l : List (Nat × α)) (k : Nat) (v : α) : List (Nat × α) :=
  if (l.find? (fun p => p.1 = k)).isSome then
    l.map (fun p => if p.1 = k then (k, v) else p)
  else l ++ [(k, v)]

/-- Map.delete on a small association list (keys are unique in every list the
operations build, so filtering is exact deletion). -/
def aerase {α : Type} (l : List (Nat × α)) (k : Nat) : List (Nat × α) :=
  l.filter (fun p => p.1 ≠ k)

/-! ### Data model: views and schedule rules (src/models/viewTypes.js) -/

/-- One hour range of a schedule rule. In the source, `from` and `to` are
"HH:MM" strings and a falsy (absent or empty) string makes the range be
skipped; we model each endpoint as an optional, already split (hours, minutes)
pair, `none` standing for a falsy endpoint. -/
structure HourRange where
  hFrom : Option (Nat × Nat)
  hTo : Option (Nat × Nat)
deriving DecidableEq, Repr

/-- The `hours` field of a schedule rule: the source accepts a single range
object or an array of ranges. -/
inductive ScheduleHours where
  | one : HourRange → ScheduleHours
  | many : List HourRange → ScheduleHours
deriving DecidableEq, Repr

/-- A schedule rule: optional weekday list, optional hour range(s).
A `days` value that is not a non-empty array is ignored by the source,
so `none` also covers those shapes. -/
structure ScheduleRule where
  days : Option (List String)
  hours : Option ScheduleHours
deriving DecidableEq, Repr

/-- View metadata. `rotateAfter` is a millisecond count; `rotateAt` stands for
the already parsed result of `parseRotateAt` (absent or unparseable both
become `none`, which is how the scheduler consumes it). Fields not used by the
verified operations (title, refresh, ...) are omitted. -/
structure ViewMetadata where
  vtype : String
  rotateAfter : Option Nat
  rotateAt : Option Nat
  schedule : Option ScheduleRule
deriving DecidableEq, Repr

/-- A view. `data` and `created_at` are never consulted by the scheduler or
hub operations under verification and are omitted. `metadata` is optional
because the source guards every access with a truthiness check. -/
structure View where
  id : Nat
  metadata : Option ViewMetadata
deriving DecidableEq, Repr

/-- A timestamp, as the scheduler observes it: weekday (Date.getDay),
hour and minute of day, and the absolute millisecond clock (Date.now). -/
structure DateTime where
  day : Fin 7
  hour : Nat
  minute : Nat
  ms : Nat
deriving DecidableEq, Repr

/-- Weekday names indexed by Date.getDay, as in isViewScheduled. -/
def dayNames : List String :=
  ["sun", "mon", "tue", "wed", "thu", "fri", "sat"]

/-- Fallback used when indexing dayNames totally; a Fin 7 index never hits it. -/
def noDayName : String := ""

/-- Weekday name of a timestamp (dayNames[now.getDay()]). -/
def currentDayName (now : DateTime) : String :=
  List.getD dayNames now.day.val noDayName

/-- Eligibility of one hour range at a minute-of-day, from isViewScheduled:
a range with a falsy endpoint is skipped (never matches); a range with
from > to wraps midnight; otherwise from ≤ m < to. -/
def rangeActive (currentMinutes : Nat) (r : HourRange) : Bool :=
  match r.hFrom, r.hTo with
  | some (fh, fm), some (th, tm) =>
    let fromMinutes := fh * 60 + fm
    let toMinutes := th * 60 + tm
    if toMinutes < fromMinutes then
      decide (fromMinutes ≤ currentMinutes) || decide (currentMinutes < toMinutes)
    else
      decide (fromMinutes ≤ currentMinutes) && decide (currentMinutes < toMinutes)
  | _, _ => false

/-- The Schedule Evaluator, embedded from isViewScheduled
(src/models/viewTypes.js, lines 402-459): no schedule means always active;
a present, non-empty days list must contain the current weekday
(case-insensitively); present hours must contain the current minute of day
in at least one range. -/
def isViewScheduled (view : View) (now : DateTime) : Bool :=
  match view.metadata with
  | none => true
  | some md =>
    match md.schedule with
    | none => true
    | some schedule =>
      let daysOk : Bool :=
        match schedule.days with
        | some ds =>
          if 0 < ds.length then
            (ds.map String.toLower).contains (currentDayName now)
          else true
        | none => true
      if daysOk then
        match schedule.hours with
        | none => true
        | some hs =>
          let currentMinutes := now.hour * 60 + now.minute
          let hourRanges :=
            match hs with
            | .one r => [r]
            | .many rs => rs
          hourRanges.any (fun r => rangeActive currentMinutes r)
      else false

/-! ### Claim-side restatement of the Schedule Evaluator (spec section 4.4) -/

/-- Day condition as claim C4 words it: if the days list is present and
non-empty it must contain now's weekday in case-insensitive 3-letter form. -/
def claimDaysOk (view : View) (now : DateTime) : Bool :=
  match view.metadata with
  | none => true
  | some md =>
    match md.schedule with
    | none => true
    | some schedule =>
      match schedule.days with
      | none => true
      | some ds =>
        if ds.isEmpty then true
        else ds.any (fun d => d.toLower = currentDayName now)

/-- Hour condition as claim C4 words it: if hour ranges are present (one range
or a list), now's minute of day must fall in at least one range, a range with
from > to wrapping midnight. -/
def claimHoursOk (view : View) (now : DateTime) : Bool :=
  match view.metadata with
  | none => true
  | some md =>
    match md.schedule with
    | none => true
    | some schedule =>
      match schedule.hours with
      | none => true
      | some hs =>
        let ranges :=
          match hs with
          | .one r => [r]
          | .many rs => rs
        let m := now.hour * 60 + now.minute
        ranges.any (fun r =>
          match r.hFrom, r.hTo with
          | some (fh, fm), some (th, tm) =>
            let f := fh * 60 + fm
            let t := th * 60 + tm
            if t < f then decide (f ≤ m) || decide (m < t)
            else decide (f ≤ m) && decide (m < t)
          | _, _ => false)

/-! ### Constrained-MTU chunker (src/services/ble/ViewCharacteristic.js) -/

/-- Packet tag: first frame of a multi-frame message. -/
def FLAG_START : Nat := 1

/-- Packet tag: middle frame of a multi-frame message. -/
def FLAG_CONTINUE : Nat := 2

/-- Packet tag: last frame of a multi-frame message. -/
def FLAG_END : Nat := 3

/-- Packet tag: complete message in one packet. -/
def FLAG_SINGLE : Nat := 4

/-- The while loop of sendViewUpdate that emits the CONTINUE and END frames:
while bytes remain, emit up to chunkSize bytes, tagged END when they are the
last ones. The source advances an offset by at least one per iteration, so a
fuel of the total length dominates the iteration count (the source would not
terminate for maxValueSize < 2; all statements assume 2 ≤ maxValueSize). -/
def sendChunksLoop (chunkSize : Nat) (fuel : Nat) (rest : List Nat) :
    List (Nat × List Nat) :=
  match fuel with
  | 0 => []
  | Nat.succ fuel1 =>
    if rest.isEmpty then []
    else if rest.length ≤ chunkSize then [(FLAG_END, rest)]
    else (FLAG_CONTINUE, rest.take chunkSize) ::
      sendChunksLoop chunkSize fuel1 (rest.drop chunkSize)

/-- The chunker of ViewCharacteristic.sendViewUpdate, as the list of
(tag, payload bytes) packets handed to the update callback: one SINGLE packet
when the serialized length fits in maxValueSize - 1 bytes, otherwise a START
frame of maxValueSize - 1 bytes followed by the loop frames. -/
def sendViewUpdate (maxValueSize : Nat) (buffer : List Nat) :
    List (Nat × List Nat) :=
  let chunkSize := maxValueSize - 1
  let totalLen := buffer.length
  if totalLen ≤ chunkSize then
    [(FLAG_SINGLE, buffer)]
  else
    (FLAG_START, buffer.take chunkSize) ::
      sendChunksLoop chunkSize totalLen (buffer.drop chunkSize)

/-! ### Broadcast Hub (src/services/channelManager.js)

The hub's module state: channels (channel -> Set of sink handles),
clientMap (sink handle -> client info), ipConnections (origin ip -> Set of
(sink, channel) records), plus the ChannelManager's redisCallbacks map.
The external Redis bus is modelled by a per-topic count of active
subscriptions (subscribe increments, unsubscribe decrements), and destroyed
connections are recorded in closedSinks. -/

/-- The ipConnections entry for one live connection: { res, channel }. -/
structure ConnInfo where
  res : Nat
  channel : Nat
deriving DecidableEq, Repr

/-- The clientMap entry for one sink: { clientId, channel, ip }. -/
structure ClientInfo where
  clientId : Nat
  channel : Nat
  ip : Nat
deriving DecidableEq, Repr

/-- The whole mutable state of channelManager.js plus the observable state of
its collaborators (bus subscription counts, destroyed connections). -/
structure HubState where
  channels : Nat → Option (List Nat)
  clientMap : Nat → Option ClientInfo
  ipConnections : Nat → Option (List ConnInfo)
  redisCallbacks : Nat → Bool
  busSubs : Nat → Nat
  closedSinks : Nat → Bool

/-- The state before any client ever connected. -/
def emptyHub : HubState where
  channels := fun _ => none
  clientMap := fun _ => none
  ipConnections := fun _ => none
  redisCallbacks := fun _ => false
  busSubs := fun _ => 0
  closedSinks := fun _ => false

/-- One iteration of the eviction loop in subscribeClient: destroy the old
connection, drop it from its channel's set, drop its clientMap entry. -/
def evictConn (s : HubState) (ci : ConnInfo) : HubState :=
  { s with
    closedSinks := fupd s.closedSinks ci.res true,
    channels :=
      match s.channels ci.channel with
      | some cl => fupd s.channels ci.channel (some (serase cl ci.res))
      | none => s.channels,
    clientMap := fupd s.clientMap ci.res none }

/-- The full eviction loop over the stored connections of one origin ip. -/
def evictAll (s : HubState) (conns : List ConnInfo) : HubState :=
  conns.foldl evictConn s

/-- The opening block of subscribeClient: when the ip has stored connections,
evict them all and delete the ip index entry; otherwise do nothing. -/
def evictPhase (ip : Nat) (s : HubState) : HubState :=
  match s.ipConnections ip with
  | some conns =>
    let se := evictAll s conns
    { se with ipConnections := fupd se.ipConnections ip none }
  | none => s

/-- ChannelManager.subscribeClient(channel, res, clientId, ip): evict every
connection stored for the same ip, create channel state and a bus
subscription if the channel has none, then register the sink in the channel
set, the clientMap and the ip index. -/
def subscribeClient (c res clientId ip : Nat) (s : HubState) : HubState :=
  let s1 := evictPhase ip s
  let s2 :=
    if (s1.channels c).isSome then s1
    else
      { s1 with
        channels := fupd s1.channels c (some []),
        redisCallbacks := fupd s1.redisCallbacks c true,
        busSubs := fupd s1.busSubs c (s1.busSubs c + 1) }
  let s3 :=
    { s2 with
      channels := fupd s2.channels c (some (sadd ((s2.channels c).getD []) res)),
      clientMap := fupd s2.clientMap res (some ⟨clientId, c, ip⟩) }
  { s3 with
    ipConnections :=
      fupd s3.ipConnections ip
        (some (((s3.ipConnections ip).getD []) ++ [⟨res, c⟩])) }

/-- ChannelManager.unsubscribeClient(channel, res): if the channel has state,
drop the sink from its set, from the ip index entry named by its clientMap
record (deleting the entry when it empties), and from the clientMap; when the
channel set empties, delete the channel state and close its bus subscription
if a callback is registered. -/
def unsubscribeClient (c res : Nat) (s : HubState) : HubState :=
  match s.channels c with
  | none => s
  | some clients =>
    let clientInfo := s.clientMap res
    let clients1 := serase clients res
    let s1 := { s with channels := fupd s.channels c (some clients1) }
    let s2 :=
      match clientInfo with
      | some info =>
        match s1.ipConnections info.ip with
        | some ipConns =>
          let ipConns1 := ipConns.eraseP (fun ci : ConnInfo => ci.res == res)
          if ipConns1.isEmpty then
            { s1 with ipConnections := fupd s1.ipConnections info.ip none }
          else
            { s1 with ipConnections := fupd s1.ipConnections info.ip (some ipConns1) }
        | none => s1
      | none => s1
    let s3 := { s2 with clientMap := fupd s2.clientMap res none }
    if clients1.isEmpty then
      let s4 := { s3 with channels := fupd s3.channels c none }
      if s4.redisCallbacks c then
        { s4 with
          busSubs := fupd s4.busSubs c (s4.busSubs c - 1),
          redisCallbacks := fupd s4.redisCallbacks c false }
      else s4
    else s3

/-- The catch branch of the fan-out callback (redisCallback) for one failing
sink: the sink is deleted from the channel's set and from the clientMap —
and from nothing else. -/
def writeFailRemove (c res : Nat) (s : HubState) : HubState :=
  { s with
    channels :=
      match s.channels c with
      | some cl => fupd s.channels c (some (serase cl res))
      | none => s.channels,
    clientMap := fupd s.clientMap res none }

/-- A bus message as the fan-out callback sees it: a type tag and an optional
view payload (the payload type is abstract). -/
structure BusMsg (V : Type) where
  mtype : String
  view : Option V
deriving DecidableEq, Repr

/-- The URL rewriting in redisCallback: view-change and initial-view messages
that carry a view get their view passed through rewriteImageUrls (an abstract
pure transform here); every other message is forwarded untouched. -/
def processMessage {V : Type} (rewriteView : V → V) (m : BusMsg V) : BusMsg V :=
  if m.mtype = "initial_view" ∨ m.mtype = "view_change" then
    match m.view with
    | some v => { m with view := some (rewriteView v) }
    | none => m
  else m

/-- One iteration of the fan-out forEach for one sink: a sink whose write
fails (membership in fails) runs the catch branch — exactly the write
failure removal — and receives nothing; any other sink receives the
processed message. -/
def fanoutStep {V : Type} (fails : List Nat) (c : Nat) (pm : BusMsg V)
    (acc : HubState × List (Nat × BusMsg V)) (res : Nat) :
    HubState × List (Nat × BusMsg V) :=
  if res ∈ fails then (writeFailRemove c res acc.1, acc.2)
  else (acc.1, acc.2 ++ [(res, pm)])

/-- The fan-out callback redisCallback(channel)(message): write the processed
message to every sink of the channel; a sink whose write fails is deleted
from the channel set and the clientMap and receives nothing; every other
sink receives the processed message, in set order. Returns the final state
and the delivery list. -/
def redisCallback {V : Type} (rewriteView : V → V) (fails : List Nat)
    (c : Nat) (m : BusMsg V) (s : HubState) :
    HubState × List (Nat × BusMsg V) :=
  match s.channels c with
  | none => (s, [])
  | some clients =>
    clients.foldl (fanoutStep fails c (processMessage rewriteView m)) (s, [])

/-- A sink handle never seen by the hub before: HTTP and BLE layers hand
subscribeClient a freshly created response object on every request. -/
def FreshSink (s : HubState) (res : Nat) : Prop :=
  s.clientMap res = none ∧
  (∀ c cl, s.channels c = some cl → res ∉ cl) ∧
  (∀ ip conns, s.ipConnections ip = some conns → ∀ ci ∈ conns, ci.res ≠ res)

/-- The hub states reachable from the empty hub by the operations the system
performs: subscribing a fresh sink, unsubscribing a sink under the channel it
was registered with (the only way the source ever calls unsubscribeClient:
from the connection's own close handler and teardown hook), and the write
failure removal of a sink currently in a channel's set. -/
inductive Reach : HubState → Prop where
  | init : Reach emptyHub
  | sub {s : HubState} (c res clientId ip : Nat) : Reach s → FreshSink s res →
      Reach (subscribeClient c res clientId ip s)
  | unsub {s : HubState} (c res : Nat) : Reach s →
      (∀ info, s.clientMap res = some info → info.channel = c) →
      Reach (unsubscribeClient c res s)
  | wfail {s : HubState} (c res : Nat) : Reach s →
      res ∈ (s.channels c).getD [] →
      Reach (writeFailRemove c res s)

/-- The inductive invariant of reachable hub states: bus subscriptions and
redis callbacks track exactly the channels that have state, every registered
sink has a clientMap record naming its channel and a matching ip index entry,
and a sink handle occurs in at most one ip index entry. -/
structure HubWF (s : HubState) : Prop where
  busCount : ∀ c, s.busSubs c = (if (s.channels c).isSome then 1 else 0)
  cbIff : ∀ c, s.redisCallbacks c = (s.channels c).isSome
  sinkInfo : ∀ c cl r, s.channels c = some cl → r ∈ cl →
    ∃ info, s.clientMap r = some info ∧ info.channel = c ∧
      ∃ conns, s.ipConnections info.ip = some conns ∧
        (⟨r, c⟩ : ConnInfo) ∈ conns
  ipRes : ∀ A conns ci, s.ipConnections A = some conns → ci ∈ conns →
    ∀ B conns2 ci2, s.ipConnections B = some conns2 → ci2 ∈ conns2 →
      ci2.res = ci.res → A = B ∧ ci2 = ci

/-- A two-subscription demonstration state, first step: sink 1 subscribed to
channel 0 from ip 5. -/
def demoHub0 : HubState := subscribeClient 0 1 10 5 emptyHub

/-- A two-subscription demonstration state: after sink 1 subscribed to
channel 0 from ip 5, sink 2 subscribes to channel 1 from the same ip, which
evicts sink 1; channel 0's set is left empty while its bus subscription and
callback survive. -/
def demoHub : HubState := subscribeClient 1 2 20 5 demoHub0

/-- A concrete hub state for the fan-out counterexample: channel 0 carries
sinks 1 (ip 5) and 2 (ip 6), each with its origin index entry. -/
def demoFanoutHub : HubState where
  channels := fun x => if x = 0 then some [1, 2] else none
  clientMap := fun r =>
    if r = 1 then some ⟨10, 0, 5⟩ else if r = 2 then some ⟨11, 0, 6⟩ else none
  ipConnections := fun i =>
    if i = 5 then some [⟨1, 0⟩] else if i = 6 then some [⟨2, 0⟩] else none
  redisCallbacks := fun x => decide (x = 0)
  busSubs := fun x => if x = 0 then 1 else 0
  closedSinks := fun _ => false

/-! ### Rotation Scheduler (src/services/viewManager.js)

The per-channel scheduler state of the ViewManager instance (the legacy
global-current-view path, taken only when no channel is given, is outside the
verified operations). The external channel configuration
(channelConfig.getChannelViews, collaborator-owned per the design) is a
parameter cfg : channel -> ordered view-id list, and the gallery store
(getGalleryImages, collaborator-owned) is a parameter gal : view-id -> image
count. The fire-and-forget call to broadcastViewChange is recorded as an
emitted broadcast effect. -/

/-- The ViewManager state the channel-scoped operations touch. A
channelRotations entry of some none is a channel whose stored timeout has
been cleared but not re-armed; some (some (viewId, delay)) is a live timer
armed for viewId after delay milliseconds. -/
structure VMState where
  channelCurrentViews : Nat → Option Nat
  viewActivationTime : Nat → Option (List (Nat × Nat))
  views : Nat → Option View
  channelRotations : Nat → Option (Option (Nat × Nat))
  manualOverrides : Nat → Option (List (Nat × Nat))

/-- Observable side effects of the scheduler operations. -/
inductive VMEffect where
  | broadcast (channel : Nat)
deriving DecidableEq, Repr

/-- The synchronous errors setCurrentView throws. -/
inductive VMError where
  | viewDoesNotExist
  | viewNotInChannel
deriving DecidableEq, Repr

/-- The repeated filter of viewManager.js: the ids that exist in this.views
and are scheduled for the current time. -/
def scheduledFilter (s : VMState) (now : DateTime) (ids : List Nat) : List Nat :=
  (ids.filter (fun id => (s.views id).isSome)).filter (fun id =>
    match s.views id with
    | some v => isViewScheduled v now
    | none => false)

/-- ViewManager.getCurrentView(channel): keep the current view when it is
set, exists, is a channel member and is overridden or scheduled; otherwise
fall back to the first existing scheduled member, updating the current-view
pointer; if none exists return null. Returns (result, state, effects). -/
def getCurrentView (cfg : Nat → List Nat) (now : DateTime) (channel : Nat)
    (s : VMState) : Option View × VMState × List VMEffect :=
  let channelViews := cfg channel
  let keep : Option View :=
    match s.channelCurrentViews channel with
    | none => none
    | some viewId =>
      match s.views viewId with
      | none => none
      | some view =>
        if viewId ∈ channelViews then
          let isManuallyOverridden :=
            match s.manualOverrides channel with
            | some oi => (alookup oi viewId).isSome
            | none => false
          if isManuallyOverridden then some view
          else if isViewScheduled view now then some view
          else none
        else none
  match keep with
  | some view => (some view, s, [])
  | none =>
    match scheduledFilter s now channelViews with
    | [] => (none, s, [])
    | firstId :: _ =>
      match s.views firstId with
      | some firstView =>
        (some firstView,
         { s with channelCurrentViews := fupd s.channelCurrentViews channel (some firstId) },
         [])
      | none => (none, s, [])

/-- The rotation delay of a view's metadata: rotateAfter if defined, else the
parsed rotateAt. -/
def delayOf (md : ViewMetadata) : Option Nat :=
  match md.rotateAfter with
  | some d => some d
  | none => md.rotateAt

/-- The channelRotations map after ViewManager.scheduleViewRotation(viewId,
channel): the channel's stored timeout is cleared, and a new timer for
viewId is armed exactly when the view has a positive delay and more than one
existing, scheduled channel member remains. -/
def rotationsAfterScheduling (cfg : Nat → List Nat) (now : DateTime)
    (viewId channel : Nat) (s : VMState) : Nat → Option (Option (Nat × Nat)) :=
  match s.views viewId with
  | none => s.channelRotations
  | some view =>
    match view.metadata with
    | none => s.channelRotations
    | some md =>
      let cleared :=
        if (s.channelRotations channel).isSome then
          fupd s.channelRotations channel (some none)
        else s.channelRotations
      match delayOf md with
      | none => cleared
      | some delay =>
        if 0 < delay then
          if (scheduledFilter s now (cfg channel)).length ≤ 1 then cleared
          else fupd cleared channel (some (some (viewId, delay)))
        else cleared

/-- ViewManager.scheduleViewRotation(viewId, channel): its only state effect
is on the channel's rotation timer. -/
def scheduleViewRotation (cfg : Nat → List Nat) (now : DateTime)
    (viewId channel : Nat) (s : VMState) : VMState :=
  { s with channelRotations := rotationsAfterScheduling cfg now viewId channel s }

/-- ViewManager.setCurrentView(id, channel, isManualTrigger): throws when the
view does not exist or is not configured for the channel (before touching any
state); on success records the activation timestamp, marks the override when
manually triggered, moves the current-view pointer, runs the un-awaited
broadcastViewChange — whose body executes synchronously up to its first
await, and opens with a getCurrentView call that can itself re-point the
channel when the freshly set view is neither overridden nor scheduled — and
then re-runs timer scheduling. -/
def setCurrentView (cfg : Nat → List Nat) (now : DateTime) (id channel : Nat)
    (isManualTrigger : Bool) (s : VMState) :
    Except VMError Unit × VMState × List VMEffect :=
  match s.views id with
  | none => (Except.error VMError.viewDoesNotExist, s, [])
  | some _ =>
    if id ∈ cfg channel then
      let act := (s.viewActivationTime channel).getD []
      let s1 := { s with
        viewActivationTime := fupd s.viewActivationTime channel (some (aset act id now.ms)) }
      let s2 :=
        if isManualTrigger then
          let oi := (s1.manualOverrides channel).getD []
          { s1 with
            manualOverrides := fupd s1.manualOverrides channel (some (aset oi id now.ms)) }
        else s1
      let s3 := { s2 with
        channelCurrentViews := fupd s2.channelCurrentViews channel (some id) }
      let s4 := (getCurrentView cfg now channel s3).2.1
      (Except.ok (), scheduleViewRotation cfg now id channel s4,
        [VMEffect.broadcast channel])
    else (Except.error VMError.viewNotInChannel, s, [])

/-- The override clearing of the rotation paths: delete viewId from the
channel's override map, dropping the map when it empties. -/
def removeOverride (channel viewId : Nat) (s : VMState) : VMState :=
  match s.manualOverrides channel with
  | none => s
  | some oi =>
    let oi1 := aerase oi viewId
    if oi1.isEmpty then
      { s with manualOverrides := fupd s.manualOverrides channel none }
    else { s with manualOverrides := fupd s.manualOverrides channel (some oi1) }

/-- The walk of the rotation timer callback: step through the eligible list
from nextIndex, skipping gallery views with zero images, for at most one full
loop (fuel = list length); on the first qualifying view clear the old view's
leftover override and call setCurrentView with isManualTrigger = false
(whose error, impossible for a member id, the source catches and logs). -/
def rotationWalk (cfg : Nat → List Nat) (gal : Nat → Nat) (now : DateTime)
    (channel oldViewId : Nat) (views : List Nat) :
    Nat → Nat → VMState → VMState × List VMEffect :=
  fun fuel nextIndex s =>
    match fuel with
    | 0 => (s, [])
    | fuel1 + 1 =>
      let nextViewId := views.getD nextIndex 0
      let isEmptyGallery :=
        match s.views nextViewId with
        | some v =>
          (match v.metadata with
           | some md => decide (md.vtype = "gallery")
           | none => false) && decide (gal nextViewId = 0)
        | none => false
      if isEmptyGallery then
        rotationWalk cfg gal now channel oldViewId views fuel1
          ((nextIndex + 1) % views.length) s
      else
        let s1 := removeOverride channel oldViewId s
        match setCurrentView cfg now nextViewId channel false s1 with
        | (Except.ok _, s2, eff) => (s2, eff)
        | (Except.error _, _, _) => (s1, [])

/-- The rotation block of the timer callback: recompute the existing
scheduled members, no-op when none remain, otherwise walk forward from the
index after the current one (JavaScript indexOf yields -1 when the current
view is not in the list, so the walk then starts at index 0). -/
def rotateToNext (cfg : Nat → List Nat) (gal : Nat → Nat) (now : DateTime)
    (channel viewId : Nat) (s : VMState) : VMState × List VMEffect :=
  let currentExistingViews := scheduledFilter s now (cfg channel)
  if currentExistingViews.isEmpty then (s, [])
  else
    let currentIndex : Int :=
      if viewId ∈ currentExistingViews then
        ((currentExistingViews.indexOf viewId : Nat) : Int)
      else -1
    let nextIndex := ((currentIndex + 1) % (currentExistingViews.length : Int)).toNat
    rotationWalk cfg gal now channel viewId currentExistingViews
      currentExistingViews.length nextIndex s

/-- The body of the setTimeout callback in scheduleViewRotation, fired for
(viewId, channel): no-op when the channel's current view has changed; for an
overridden, still scheduled view keep it and re-run timer scheduling; for an
overridden view no longer scheduled clear the override and rotate; otherwise
rotate. -/
def onRotationFire (cfg : Nat → List Nat) (gal : Nat → Nat) (now : DateTime)
    (viewId channel : Nat) (s : VMState) : VMState × List VMEffect :=
  if s.channelCurrentViews channel = some viewId then
    let isManuallyOverridden :=
      match s.manualOverrides channel with
      | some oi => (alookup oi viewId).isSome
      | none => false
    if isManuallyOverridden then
      let stillScheduled :=
        match s.views viewId with
        | some v => isViewScheduled v now
        | none => false
      if stillScheduled then (scheduleViewRotation cfg now viewId channel s, [])
      else rotateToNext cfg gal now channel viewId (removeOverride channel viewId s)
    else rotateToNext cfg gal now channel viewId s
  else (s, [])

/-! ### Claim-side restatements for the scheduler -/

/-- The first channel member that exists and is currently eligible, in
configured order (claim C1's selection). -/
def firstEligibleId (cfg : Nat → List Nat) (now : DateTime) (channel : Nat)
    (s : VMState) : Option Nat :=
  (cfg channel).find? (fun id =>
    match s.views id with
    | some v => isViewScheduled v now
    | none => false)

/-- The returned view of getCurrentView as claim C1 words it: a set, existing,
member current view is returned unconditionally when overridden, returned
when eligible, and otherwise (or when there is no valid current view) the
first existing eligible member is selected; none when no such view exists. -/
def specSelectView (cfg : Nat → List Nat) (now : DateTime) (channel : Nat)
    (s : VMState) : Option View :=
  let members := cfg channel
  let current : Option (Nat × View) :=
    match s.channelCurrentViews channel with
    | none => none
    | some vid =>
      match s.views vid with
      | none => none
      | some v => if vid ∈ members then some (vid, v) else none
  match current with
  | none => (firstEligibleId cfg now channel s).bind s.views
  | some (vid, v) =>
    if (match s.manualOverrides channel with
        | some oi => (alookup oi vid).isSome
        | none => false) then some v
    else if isViewScheduled v now then some v
    else (firstEligibleId cfg now channel s).bind s.views

/-- Claim C10's fall-through condition: the current view is unset, removed,
not a member, or not eligible while not overridden. -/
def fallsThrough (cfg : Nat → List Nat) (now : DateTime) (channel : Nat)
    (s : VMState) : Bool :=
  match s.channelCurrentViews channel with
  | none => true
  | some vid =>
    match s.views vid with
    | none => true
    | some v =>
      if vid ∈ cfg channel then
        if (match s.manualOverrides channel with
            | some oi => (alookup oi vid).isSome
            | none => false) then false
        else !(isViewScheduled v now)
      else true

/-- A demonstration timestamp: a Sunday at 12:00, clock 99000 ms. -/
def demoNow : DateTime := ⟨0, 12, 0, 99000⟩

/-- A demonstration channel configuration: every channel carries views 1, 2. -/
def demoCfg : Nat → List Nat := fun _ => [1, 2]

/-- A demonstration gallery store: every gallery has one image. -/
def demoGal : Nat → Nat := fun _ => 1

/-- A view with no rotation delay (neither rotateAfter nor rotateAt). -/
def demoViewNoDelay : View := ⟨1, some ⟨"custom", none, none, none⟩⟩

/-- A view with rotateAfter of 500 ms. -/
def demoViewDelayed : View := ⟨2, some ⟨"custom", some 500, none, none⟩⟩

/-- Scheduler state for the setCurrentView counterexample: views 1 (no
delay) and 2 (delayed) exist, and channel 0 currently has a live timer armed
for view 2. -/
def demoVMnoDelay : VMState where
  channelCurrentViews := fun _ => none
  viewActivationTime := fun _ => none
  views := fun id =>
    if id = 1 then some demoViewNoDelay
    else if id = 2 then some demoViewDelayed else none
  channelRotations := fun x => if x = 0 then some (some (2, 500)) else none
  manualOverrides := fun _ => none

/-- A schedule-free view with rotateAfter of 1000 ms. -/
def demoViewA : View := ⟨1, some ⟨"custom", some 1000, none, none⟩⟩

/-- A view limited to the 13:00-14:00 hour range, with rotateAfter of
1000 ms (not eligible at the demonstration timestamp's 12:00). -/
def demoViewB : View :=
  ⟨2, some ⟨"custom", some 1000, none,
    some ⟨none, some (ScheduleHours.one ⟨some (13, 0), some (14, 0)⟩)⟩⟩⟩

/-- Scheduler state for the override-rotation counterexample: view 1 is the
current, manually overridden view of channel 0, its timer is armed, and
view 2 is the only other member but is not eligible at noon. -/
def demoVMoverride : VMState where
  channelCurrentViews := fun x => if x = 0 then some 1 else none
  viewActivationTime := fun _ => none
  views := fun id =>
    if id = 1 then some demoViewA
    else if id = 2 then some demoViewB else none
  channelRotations := fun x => if x = 0 then some (some (1, 1000)) else none
  manualOverrides := fun x => if x = 0 then some [(1, 5)] else none

/-- Scheduler state for the broadcast re-pointing counterexample: views 1
(always eligible) and 2 (13:00-14:00 only) exist, no channel has a current
view, an override or a timer. -/
def demoVMrepoint : VMState where
  channelCurrentViews := fun _ => none
  viewActivationTime := fun _ => none
  views := fun id =>
    if id = 1 then some demoViewNoDelay
    else if id = 2 then some demoViewB else none
  channelRotations := fun _ => none
  manualOverrides := fun _ => none

end Redisplay

namespace Redisplay

/-- Updating at a key reads back the new value. -/
theorem fupd_self {α : Type} (f : Nat → α) (k : Nat) (v : α) : fupd f k v k = v := by
  simp [fupd]

/-- Updating at a key leaves other keys unchanged. -/
theorem fupd_ne {α : Type} {f : Nat → α} {k x : Nat} {v : α} (h : x ≠ k) :
    fupd f k v x = f x := by
  simp [fupd, h]

/-- Updating the same key twice keeps only the second value. -/
theorem fupd_fupd {α : Type} (f : Nat → α) (k : Nat) (v w : α) :
    fupd (fupd f k v) k w = fupd f k w := by
  funext x
  by_cases h : x = k <;> simp [fupd, h]

/-- Membership in a set after deletion. -/
theorem mem_serase {l : List Nat} {x y : Nat} : y ∈ serase l x ↔ y ∈ l ∧ y ≠ x := by
  simp [serase]

/-- A deleted element is gone. -/
theorem serase_self {l : List Nat} {x : Nat} : x ∉ serase l x := by
  simp [serase]

/-- Membership in a set after insertion. -/
theorem mem_sadd {l : List Nat} {x y : Nat} : y ∈ sadd l x ↔ y ∈ l ∨ y = x := by
  by_cases h : x ∈ l
  · simp only [sadd, if_pos h]
    exact ⟨Or.inl, fun hy => hy.elim id (fun he => he ▸ h)⟩
  · simp [sadd, h]

/-! ### Behaviour of the eviction loop -/

/-- One eviction step: fields other than channels, clientMap and closedSinks
are untouched. -/
theorem evictConn_frame (s : HubState) (ci : ConnInfo) :
    (evictConn s ci).busSubs = s.busSubs ∧
    (evictConn s ci).redisCallbacks = s.redisCallbacks ∧
    (evictConn s ci).ipConnections = s.ipConnections := by
  exact ⟨rfl, rfl, rfl⟩

/-- One eviction step erases the connection's clientMap entry. -/
theorem evictConn_clientMap (s : HubState) (ci : ConnInfo) :
    (evictConn s ci).clientMap = fupd s.clientMap ci.res none := rfl

/-- One eviction step closes the connection. -/
theorem evictConn_closedSinks (s : HubState) (ci : ConnInfo) :
    (evictConn s ci).closedSinks = fupd s.closedSinks ci.res true := rfl

/-- One eviction step leaves other channels' sets unchanged. -/
theorem evictConn_channels_ne (s : HubState) (ci : ConnInfo) {c : Nat}
    (h : c ≠ ci.channel) : (evictConn s ci).channels c = s.channels c := by
  show (match s.channels ci.channel with
        | some cl0 => fupd s.channels ci.channel (some (serase cl0 ci.res))
        | none => s.channels) c = s.channels c
  cases hs : s.channels ci.channel with
  | none => rfl
  | some cl0 => exact fupd_ne h

/-- One eviction step deletes the sink from its stored channel's set. -/
theorem evictConn_channels_self (s : HubState) (ci : ConnInfo) {cl : List Nat}
    (h : s.channels ci.channel = some cl) :
    (evictConn s ci).channels ci.channel = some (serase cl ci.res) := by
  show (match s.channels ci.channel with
        | some cl0 => fupd s.channels ci.channel (some (serase cl0 ci.res))
        | none => s.channels) ci.channel = some (serase cl ci.res)
  rw [h]
  exact fupd_self _ _ _

/-- Eviction never touches bus subscriptions, redis callbacks or the ip
index. -/
theorem evictAll_collab (s : HubState) (conns : List ConnInfo) :
    (evictAll s conns).busSubs = s.busSubs ∧
    (evictAll s conns).redisCallbacks = s.redisCallbacks ∧
    (evictAll s conns).ipConnections = s.ipConnections := by
  induction conns generalizing s with
  | nil => exact ⟨rfl, rfl, rfl⟩
  | cons ci rest ih =>
    have h := ih (evictConn s ci)
    rw [evictAll, List.foldl_cons, ← evictAll]
    exact ⟨h.1, h.2.1, h.2.2⟩

/-- One eviction step with no stored channel state leaves channels alone. -/
theorem evictConn_channels_none (s : HubState) (ci : ConnInfo)
    (h : s.channels ci.channel = none) :
    (evictConn s ci).channels = s.channels := by
  show (match s.channels ci.channel with
        | some cl0 => fupd s.channels ci.channel (some (serase cl0 ci.res))
        | none => s.channels) = s.channels
  rw [h]

/-- One eviction step keeps whether a channel has state. -/
theorem evictConn_channels_isSome (s : HubState) (ci : ConnInfo) (c : Nat) :
    ((evictConn s ci).channels c).isSome = (s.channels c).isSome := by
  by_cases hk : c = ci.channel
  · subst hk
    cases hs : s.channels ci.channel with
    | none => rw [evictConn_channels_none s ci hs, hs]
    | some cl =>
      rw [evictConn_channels_self s ci hs]
      rfl
  · rw [evictConn_channels_ne s ci hk]

/-- Eviction keeps whether a channel has state. -/
theorem evictAll_channels_isSome (conns : List ConnInfo) (s : HubState) (c : Nat) :
    ((evictAll s conns).channels c).isSome = (s.channels c).isSome := by
  induction conns generalizing s with
  | nil => rfl
  | cons ci rest ih =>
    rw [evictAll, List.foldl_cons, ← evictAll, ih, evictConn_channels_isSome]

/-- One eviction step only shrinks channel sets. -/
theorem evictConn_channels_mem (s : HubState) (ci : ConnInfo) {c r : Nat}
    {cl : List Nat} (h : (evictConn s ci).channels c = some cl) (hm : r ∈ cl) :
    ∃ cl0, s.channels c = some cl0 ∧ r ∈ cl0 := by
  by_cases hk : c = ci.channel
  · subst hk
    cases hs : s.channels ci.channel with
    | none =>
      rw [evictConn_channels_none s ci hs, hs] at h
      cases h
    | some cl1 =>
      rw [evictConn_channels_self s ci hs] at h
      cases h
      exact ⟨cl1, rfl, (mem_serase.mp hm).1⟩
  · rw [evictConn_channels_ne s ci hk] at h
    exact ⟨cl, h, hm⟩

/-- Eviction only shrinks channel sets. -/
theorem evictAll_channels_mem (conns : List ConnInfo) (s : HubState) {c r : Nat}
    {cl : List Nat} (h : (evictAll s conns).channels c = some cl) (hm : r ∈ cl) :
    ∃ cl0, s.channels c = some cl0 ∧ r ∈ cl0 := by
  induction conns generalizing s with
  | nil => exact ⟨cl, h, hm⟩
  | cons ci rest ih =>
    rw [evictAll, List.foldl_cons, ← evictAll] at h
    obtain ⟨cl1, h1, hm1⟩ := ih (evictConn s ci) h
    exact evictConn_channels_mem s ci h1 hm1

/-- An evicted connection's sink is no longer in the channel it was stored
under. -/
theorem evictAll_removed (conns : List ConnInfo) (s : HubState) {ci : ConnInfo}
    (hci : ci ∈ conns) {cl : List Nat}
    (h : (evictAll s conns).channels ci.channel = some cl) : ci.res ∉ cl := by
  induction conns generalizing s with
  | nil => cases hci
  | cons cj rest ih =>
    rw [evictAll, List.foldl_cons, ← evictAll] at h
    rcases List.mem_cons.mp hci with he | hr
    · subst he
      intro hmem
      obtain ⟨cl0, h0, hm0⟩ := evictAll_channels_mem rest (evictConn s ci) h hmem
      cases hs : s.channels ci.channel with
      | none =>
        rw [evictConn_channels_none s ci hs, hs] at h0
        cases h0
      | some cl1 =>
        rw [evictConn_channels_self s ci hs] at h0
        cases h0
        exact serase_self hm0
    · exact ih (evictConn s cj) hr h

/-- Eviction does not touch the clientMap entries of sinks outside the evicted
list. -/
theorem evictAll_clientMap_other (conns : List ConnInfo) (s : HubState) {r : Nat}
    (h : ∀ ci ∈ conns, ci.res ≠ r) :
    (evictAll s conns).clientMap r = s.clientMap r := by
  induction conns generalizing s with
  | nil => rfl
  | cons ci rest ih =>
    rw [evictAll, List.foldl_cons, ← evictAll,
      ih (evictConn s ci) (fun cj hj => h cj (List.mem_cons_of_mem ci hj)),
      evictConn_clientMap]
    exact fupd_ne (fun he => h ci (List.mem_cons_self ci rest) he.symm)

/-- Every evicted sink's clientMap entry is erased. -/
theorem evictAll_clientMap_evicted (conns : List ConnInfo) (s : HubState)
    {ci : ConnInfo} (hci : ci ∈ conns) :
    (evictAll s conns).clientMap ci.res = none := by
  induction conns generalizing s ci with
  | nil => cases hci
  | cons cj rest ih =>
    rw [evictAll, List.foldl_cons, ← evictAll]
    rcases List.mem_cons.mp hci with he | hr
    · subst he
      by_cases hin : ∃ ck ∈ rest, ck.res = ci.res
      · obtain ⟨ck, hk, hke⟩ := hin
        rw [← hke]
        exact ih (evictConn s ci) hk
      · push_neg at hin
        rw [evictAll_clientMap_other rest (evictConn s ci) hin,
          evictConn_clientMap]
        exact fupd_self _ _ _
    · exact ih (evictConn s cj) hr

/-- The closed flag only ever becomes true during eviction. -/
theorem evictAll_closed_mono (conns : List ConnInfo) (s : HubState) {r : Nat}
    (h : s.closedSinks r = true) : (evictAll s conns).closedSinks r = true := by
  induction conns generalizing s with
  | nil => exact h
  | cons ci rest ih =>
    rw [evictAll, List.foldl_cons, ← evictAll]
    refine ih (evictConn s ci) ?_
    rw [evictConn_closedSinks]
    by_cases he : r = ci.res
    · subst he
      exact fupd_self _ _ _
    · rw [fupd_ne he]
      exact h

/-- Every evicted sink's connection is destroyed. -/
theorem evictAll_closed (conns : List ConnInfo) (s : HubState) {ci : ConnInfo}
    (hci : ci ∈ conns) : (evictAll s conns).closedSinks ci.res = true := by
  induction conns generalizing s with
  | nil => cases hci
  | cons cj rest ih =>
    rw [evictAll, List.foldl_cons, ← evictAll]
    rcases List.mem_cons.mp hci with he | hr
    · subst he
      refine evictAll_closed_mono rest (evictConn s ci) ?_
      rw [evictConn_closedSinks]
      exact fupd_self _ _ _
    · exact ih (evictConn s cj) hr

/-! ### Behaviour of subscribeClient -/

/-- The eviction phase never touches bus subscription counts. -/
theorem evictPhase_busSubs (ip : Nat) (s : HubState) :
    (evictPhase ip s).busSubs = s.busSubs := by
  show (match s.ipConnections ip with
        | some conns =>
          { evictAll s conns with
            ipConnections := fupd (evictAll s conns).ipConnections ip none }
        | none => s).busSubs = s.busSubs
  cases hip : s.ipConnections ip with
  | none => rfl
  | some conns => exact (evictAll_collab s conns).1

/-- The eviction phase never touches redis callbacks. -/
theorem evictPhase_redisCallbacks (ip : Nat) (s : HubState) :
    (evictPhase ip s).redisCallbacks = s.redisCallbacks := by
  show (match s.ipConnections ip with
        | some conns =>
          { evictAll s conns with
            ipConnections := fupd (evictAll s conns).ipConnections ip none }
        | none => s).redisCallbacks = s.redisCallbacks
  cases hip : s.ipConnections ip with
  | none => rfl
  | some conns => exact (evictAll_collab s conns).2.1

/-- The eviction phase keeps whether a channel has state. -/
theorem evictPhase_channels_isSome (ip : Nat) (s : HubState) (c : Nat) :
    ((evictPhase ip s).channels c).isSome = (s.channels c).isSome := by
  show ((match s.ipConnections ip with
        | some conns =>
          { evictAll s conns with
            ipConnections := fupd (evictAll s conns).ipConnections ip none }
        | none => s).channels c).isSome = (s.channels c).isSome
  cases hip : s.ipConnections ip with
  | none => rfl
  | some conns => exact evictAll_channels_isSome conns s c

/-- The eviction phase only shrinks channel sets. -/
theorem evictPhase_channels_mem (ip : Nat) (s : HubState) {c r : Nat}
    {cl : List Nat} (h : (evictPhase ip s).channels c = some cl) (hm : r ∈ cl) :
    ∃ cl0, s.channels c = some cl0 ∧ r ∈ cl0 := by
  revert h
  show (match s.ipConnections ip with
        | some conns =>
          { evictAll s conns with
            ipConnections := fupd (evictAll s conns).ipConnections ip none }
        | none => s).channels c = some cl → _
  cases hip : s.ipConnections ip with
  | none =>
    intro h
    exact ⟨cl, h, hm⟩
  | some conns =>
    intro h
    exact evictAll_channels_mem conns s h hm

/-- After the eviction phase the ip has no index entry. -/
theorem evictPhase_ipConnections_self (ip : Nat) (s : HubState) :
    (evictPhase ip s).ipConnections ip = none := by
  show (match s.ipConnections ip with
        | some conns =>
          { evictAll s conns with
            ipConnections := fupd (evictAll s conns).ipConnections ip none }
        | none => s).ipConnections ip = none
  cases hip : s.ipConnections ip with
  | none => exact hip
  | some conns => exact fupd_self _ _ _

/-- The eviction phase leaves other ips' index entries unchanged. -/
theorem evictPhase_ipConnections_ne (ip : Nat) (s : HubState) {x : Nat}
    (h : x ≠ ip) : (evictPhase ip s).ipConnections x = s.ipConnections x := by
  show (match s.ipConnections ip with
        | some conns =>
          { evictAll s conns with
            ipConnections := fupd (evictAll s conns).ipConnections ip none }
        | none => s).ipConnections x = s.ipConnections x
  cases hip : s.ipConnections ip with
  | none => rfl
  | some conns =>
    show fupd (evictAll s conns).ipConnections ip none x = s.ipConnections x
    rw [fupd_ne h, (evictAll_collab s conns).2.2]

/-- subscribeClient's bus subscription effect: one new subscription for the
channel exactly when the channel had no state. -/
theorem sub_busSubs (c res cid ip : Nat) (s : HubState) :
    (subscribeClient c res cid ip s).busSubs =
      if (s.channels c).isSome then s.busSubs
      else fupd s.busSubs c (s.busSubs c + 1) := by
  have hiff := evictPhase_channels_isSome ip s c
  by_cases h : ((evictPhase ip s).channels c).isSome
  · simp only [subscribeClient, if_pos h]
    rw [← hiff, if_pos h]
    exact evictPhase_busSubs ip s
  · simp only [subscribeClient, if_neg h]
    rw [← hiff, if_neg h]
    show fupd (evictPhase ip s).busSubs c ((evictPhase ip s).busSubs c + 1) = _
    rw [evictPhase_busSubs ip s]

/-- subscribeClient's redis callback effect: a callback is registered exactly
when the channel had no state. -/
theorem sub_redisCallbacks (c res cid ip : Nat) (s : HubState) :
    (subscribeClient c res cid ip s).redisCallbacks =
      if (s.channels c).isSome then s.redisCallbacks
      else fupd s.redisCallbacks c true := by
  have hiff := evictPhase_channels_isSome ip s c
  by_cases h : ((evictPhase ip s).channels c).isSome
  · simp only [subscribeClient, if_pos h]
    rw [← hiff, if_pos h]
    exact evictPhase_redisCallbacks ip s
  · simp only [subscribeClient, if_neg h]
    rw [← hiff, if_neg h]
    show fupd (evictPhase ip s).redisCallbacks c true = _
    rw [evictPhase_redisCallbacks ip s]

/-- subscribeClient's channel set for the subscribed channel: the sink is
added to the post-eviction set. -/
theorem sub_channels_self (c res cid ip : Nat) (s : HubState) :
    (subscribeClient c res cid ip s).channels c =
      some (sadd (((evictPhase ip s).channels c).getD []) res) := by
  by_cases h : ((evictPhase ip s).channels c).isSome
  · simp only [subscribeClient, if_pos h]
    exact fupd_self _ _ _
  · simp only [subscribeClient, if_neg h]
    show fupd (fupd (evictPhase ip s).channels c (some []))
        c (some (sadd ((fupd (evictPhase ip s).channels c (some []) c).getD []) res)) c = _
    rw [Option.not_isSome_iff_eq_none.mp h, fupd_self, fupd_self]
    rfl

/-- subscribeClient leaves other channels at their post-eviction sets. -/
theorem sub_channels_ne (c res cid ip : Nat) (s : HubState) {x : Nat}
    (h : x ≠ c) :
    (subscribeClient c res cid ip s).channels x = (evictPhase ip s).channels x := by
  by_cases hs : ((evictPhase ip s).channels c).isSome
  · simp only [subscribeClient, if_pos hs]
    exact fupd_ne h
  · simp only [subscribeClient, if_neg hs]
    show fupd (fupd (evictPhase ip s).channels c (some []))
        c (some (sadd ((fupd (evictPhase ip s).channels c (some []) c).getD []) res)) x = _
    rw [fupd_ne h, fupd_ne h]

/-- subscribeClient's clientMap: the new sink's record over the post-eviction
map. -/
theorem sub_clientMap (c res cid ip : Nat) (s : HubState) :
    (subscribeClient c res cid ip s).clientMap =
      fupd (evictPhase ip s).clientMap res (some ⟨cid, c, ip⟩) := by
  by_cases h : ((evictPhase ip s).channels c).isSome
  · simp only [subscribeClient, if_pos h]
  · simp only [subscribeClient, if_neg h]

/-- subscribeClient's ip index entry for the subscribing ip: exactly the new
connection. -/
theorem sub_ipConnections_self (c res cid ip : Nat) (s : HubState) :
    (subscribeClient c res cid ip s).ipConnections ip =
      some [(⟨res, c⟩ : ConnInfo)] := by
  by_cases h : ((evictPhase ip s).channels c).isSome
  · simp only [subscribeClient, if_pos h]
    show fupd (evictPhase ip s).ipConnections ip
        (some (((evictPhase ip s).ipConnections ip).getD [] ++ [⟨res, c⟩])) ip = _
    rw [fupd_self, evictPhase_ipConnections_self]
    rfl
  · simp only [subscribeClient, if_neg h]
    show fupd (evictPhase ip s).ipConnections ip
        (some (((evictPhase ip s).ipConnections ip).getD [] ++ [⟨res, c⟩])) ip = _
    rw [fupd_self, evictPhase_ipConnections_self]
    rfl

/-- subscribeClient leaves other ips' index entries unchanged. -/
theorem sub_ipConnections_ne (c res cid ip : Nat) (s : HubState) {x : Nat}
    (h : x ≠ ip) :
    (subscribeClient c res cid ip s).ipConnections x = s.ipConnections x := by
  by_cases hs : ((evictPhase ip s).channels c).isSome
  · simp only [subscribeClient, if_pos hs]
    show fupd (evictPhase ip s).ipConnections ip
        (some (((evictPhase ip s).ipConnections ip).getD [] ++ [⟨res, c⟩])) x = _
    rw [fupd_ne h, evictPhase_ipConnections_ne ip s h]
  · simp only [subscribeClient, if_neg hs]
    show fupd (evictPhase ip s).ipConnections ip
        (some (((evictPhase ip s).ipConnections ip).getD [] ++ [⟨res, c⟩])) x = _
    rw [fupd_ne h, evictPhase_ipConnections_ne ip s h]

/-- subscribeClient's closed connections are those of the eviction phase. -/
theorem sub_closedSinks (c res cid ip : Nat) (s : HubState) :
    (subscribeClient c res cid ip s).closedSinks = (evictPhase ip s).closedSinks := by
  by_cases h : ((evictPhase ip s).channels c).isSome
  · simp only [subscribeClient, if_pos h]
  · simp only [subscribeClient, if_neg h]

/-! ### Behaviour of unsubscribeClient -/

/-- unsubscribeClient on a channel without state does nothing. -/
theorem unsub_noChannel (c res : Nat) (s : HubState)
    (h : s.channels c = none) : unsubscribeClient c res s = s := by
  unfold unsubscribeClient
  rw [h]

/-- Full characterization of unsubscribeClient on a channel with state:
the sink leaves the channel set (the channel state being deleted and, when a
callback is registered, its bus subscription closed, if the set empties), its
clientMap entry is erased, its first ip index record (located through its
clientMap entry) is removed, and nothing is destroyed. -/
theorem unsub_spec (c res : Nat) (s : HubState) {clients : List Nat}
    (h : s.channels c = some clients) :
    (unsubscribeClient c res s).channels =
      (if (serase clients res).isEmpty then fupd s.channels c none
       else fupd s.channels c (some (serase clients res))) ∧
    (unsubscribeClient c res s).clientMap = fupd s.clientMap res none ∧
    (unsubscribeClient c res s).busSubs =
      (if (serase clients res).isEmpty && s.redisCallbacks c
       then fupd s.busSubs c (s.busSubs c - 1) else s.busSubs) ∧
    (unsubscribeClient c res s).redisCallbacks =
      (if (serase clients res).isEmpty && s.redisCallbacks c
       then fupd s.redisCallbacks c false else s.redisCallbacks) ∧
    (unsubscribeClient c res s).closedSinks = s.closedSinks ∧
    (unsubscribeClient c res s).ipConnections =
      (match s.clientMap res with
       | some info =>
         match s.ipConnections info.ip with
         | some ipConns =>
           if (ipConns.eraseP (fun ci : ConnInfo => ci.res == res)).isEmpty
           then fupd s.ipConnections info.ip none
           else fupd s.ipConnections info.ip
             (some (ipConns.eraseP (fun ci : ConnInfo => ci.res == res)))
         | none => s.ipConnections
       | none => s.ipConnections) := by
  simp only [unsubscribeClient, h]
  cases hci : s.clientMap res with
  | none =>
    by_cases he : (serase clients res).isEmpty
    · by_cases hr : s.redisCallbacks c
      · refine ⟨?_, ?_, ?_, ?_, ?_, ?_⟩ <;> simp [he, hr, fupd_fupd]
      · refine ⟨?_, ?_, ?_, ?_, ?_, ?_⟩ <;> simp [he, hr, fupd_fupd]
    · refine ⟨?_, ?_, ?_, ?_, ?_, ?_⟩ <;> simp [he, fupd_fupd]
  | some info =>
    cases hip : s.ipConnections info.ip with
    | none =>
      by_cases he : (serase clients res).isEmpty
      · by_cases hr : s.redisCallbacks c
        · refine ⟨?_, ?_, ?_, ?_, ?_, ?_⟩ <;> simp [he, hr, hip, fupd_fupd]
        · refine ⟨?_, ?_, ?_, ?_, ?_, ?_⟩ <;> simp [he, hr, hip, fupd_fupd]
      · refine ⟨?_, ?_, ?_, ?_, ?_, ?_⟩ <;> simp [he, hip, fupd_fupd]
    | some ipConns =>
      by_cases hpe : (ipConns.eraseP (fun ci : ConnInfo => ci.res == res)).isEmpty
      · by_cases he : (serase clients res).isEmpty
        · by_cases hr : s.redisCallbacks c
          · refine ⟨?_, ?_, ?_, ?_, ?_, ?_⟩ <;> simp [he, hr, hip, hpe, fupd_fupd]
          · refine ⟨?_, ?_, ?_, ?_, ?_, ?_⟩ <;> simp [he, hr, hip, hpe, fupd_fupd]
        · refine ⟨?_, ?_, ?_, ?_, ?_, ?_⟩ <;> simp [he, hip, hpe, fupd_fupd]
      · by_cases he : (serase clients res).isEmpty
        · by_cases hr : s.redisCallbacks c
          · refine ⟨?_, ?_, ?_, ?_, ?_, ?_⟩ <;> simp [he, hr, hip, hpe, fupd_fupd]
          · refine ⟨?_, ?_, ?_, ?_, ?_, ?_⟩ <;> simp [he, hr, hip, hpe, fupd_fupd]
        · refine ⟨?_, ?_, ?_, ?_, ?_, ?_⟩ <;> simp [he, hip, hpe, fupd_fupd]

/-! ### Behaviour of writeFailRemove and the hub invariant -/

/-- The write-failure removal deletes the sink from the channel set it was
being delivered on. -/
theorem wfail_channels_self (c res : Nat) (s : HubState) {cl : List Nat}
    (h : s.channels c = some cl) :
    (writeFailRemove c res s).channels c = some (serase cl res) := by
  show (match s.channels c with
        | some cl0 => fupd s.channels c (some (serase cl0 res))
        | none => s.channels) c = some (serase cl res)
  rw [h]
  exact fupd_self _ _ _

/-- The write-failure removal leaves other channels' sets unchanged. -/
theorem wfail_channels_ne (c res : Nat) (s : HubState) {x : Nat} (h : x ≠ c) :
    (writeFailRemove c res s).channels x = s.channels x := by
  show (match s.channels c with
        | some cl0 => fupd s.channels c (some (serase cl0 res))
        | none => s.channels) x = s.channels x
  cases hs : s.channels c with
  | none => rfl
  | some cl0 => exact fupd_ne h

/-- The write-failure removal erases the sink's clientMap entry and touches
nothing else. -/
theorem wfail_frame (c res : Nat) (s : HubState) :
    (writeFailRemove c res s).clientMap = fupd s.clientMap res none ∧
    (writeFailRemove c res s).ipConnections = s.ipConnections ∧
    (writeFailRemove c res s).busSubs = s.busSubs ∧
    (writeFailRemove c res s).redisCallbacks = s.redisCallbacks ∧
    (writeFailRemove c res s).closedSinks = s.closedSinks :=
  ⟨rfl, rfl, rfl, rfl, rfl⟩

/-- The empty hub satisfies the invariant. -/
theorem hubWF_empty : HubWF emptyHub := by
  refine ⟨?_, ?_, ?_, ?_⟩
  · intro c
    rfl
  · intro c
    rfl
  · intro c cl r h
    cases h
  · intro A conns ci h
    cases h

/-- The write-failure removal of a sink that is in the channel's set preserves
the hub invariant. -/
theorem hubWF_wfail {s : HubState} (wf : HubWF s) (c res : Nat)
    (hres : res ∈ (s.channels c).getD []) : HubWF (writeFailRemove c res s) := by
  have hch : ∃ cl, s.channels c = some cl ∧ res ∈ cl := by
    cases hs : s.channels c with
    | none =>
      rw [hs] at hres
      cases hres
    | some cl =>
      rw [hs] at hres
      exact ⟨cl, rfl, hres⟩
  obtain ⟨cl, hcl, hmem⟩ := hch
  obtain ⟨hcm, hip, hbus, hcb, hcs⟩ := wfail_frame c res s
  have hchan : ∀ x, ((writeFailRemove c res s).channels x).isSome = (s.channels x).isSome := by
    intro x
    by_cases hx : x = c
    · subst hx
      rw [wfail_channels_self x res s hcl, hcl]
      rfl
    · rw [wfail_channels_ne c res s hx]
  refine ⟨?_, ?_, ?_, ?_⟩
  · intro x
    rw [hbus, hchan x]
    exact wf.busCount x
  · intro x
    rw [hcb, hchan x]
    exact wf.cbIff x
  · intro x clx r hx hr
    have hrne : r ≠ res := by
      intro he
      subst he
      by_cases hxc : x = c
      · subst hxc
        rw [wfail_channels_self x r s hcl] at hx
        cases hx
        exact serase_self hr
      · rw [wfail_channels_ne c r s hxc] at hx
        obtain ⟨info1, hi1, hic1, _⟩ := wf.sinkInfo x clx r hx hr
        obtain ⟨info2, hi2, hic2, _⟩ := wf.sinkInfo c cl r hcl hmem
        rw [hi1] at hi2
        cases hi2
        exact hxc (hic1 ▸ hic2 ▸ rfl)
    have hpre : ∃ cl0, s.channels x = some cl0 ∧ r ∈ cl0 := by
      by_cases hxc : x = c
      · subst hxc
        rw [wfail_channels_self x res s hcl] at hx
        cases hx
        exact ⟨cl, hcl, (mem_serase.mp hr).1⟩
      · rw [wfail_channels_ne c res s hxc] at hx
        exact ⟨clx, hx, hr⟩
    obtain ⟨cl0, hcl0, hr0⟩ := hpre
    obtain ⟨info, hi, hic, conns, hconns, hcimem⟩ := wf.sinkInfo x cl0 r hcl0 hr0
    refine ⟨info, ?_, hic, conns, ?_, hcimem⟩
    · rw [hcm, fupd_ne hrne]
      exact hi
    · rw [hip]
      exact hconns
  · intro A conns ci hA hci B conns2 ci2 hB hci2 hre
    rw [hip] at hA hB
    exact wf.ipRes A conns ci hA hci B conns2 ci2 hB hci2 hre

/-- The eviction phase leaves alone the clientMap entries of sinks that are
not stored under the evicted ip. -/
theorem evictPhase_clientMap_other (ip : Nat) (s : HubState) {r : Nat}
    (h : ∀ conns, s.ipConnections ip = some conns → ∀ ci ∈ conns, ci.res ≠ r) :
    (evictPhase ip s).clientMap r = s.clientMap r := by
  show (match s.ipConnections ip with
        | some conns =>
          { evictAll s conns with
            ipConnections := fupd (evictAll s conns).ipConnections ip none }
        | none => s).clientMap r = s.clientMap r
  cases hip : s.ipConnections ip with
  | none => rfl
  | some conns => exact evictAll_clientMap_other conns s (h conns hip)

/-- After the eviction phase, an evicted connection's sink has left the
channel it was stored under. -/
theorem evictPhase_removed (ip : Nat) (s : HubState) {conns : List ConnInfo}
    {ci : ConnInfo} (hip : s.ipConnections ip = some conns) (hci : ci ∈ conns)
    {cl : List Nat} (h : (evictPhase ip s).channels ci.channel = some cl) :
    ci.res ∉ cl := by
  revert h
  show (match s.ipConnections ip with
        | some conns =>
          { evictAll s conns with
            ipConnections := fupd (evictAll s conns).ipConnections ip none }
        | none => s).channels ci.channel = some cl → _
  rw [hip]
  intro h
  exact evictAll_removed conns s hci h

/-- After the eviction phase, every evicted connection is destroyed. -/
theorem evictPhase_closed (ip : Nat) (s : HubState) {conns : List ConnInfo}
    {ci : ConnInfo} (hip : s.ipConnections ip = some conns) (hci : ci ∈ conns) :
    (evictPhase ip s).closedSinks ci.res = true := by
  show (match s.ipConnections ip with
        | some conns =>
          { evictAll s conns with
            ipConnections := fupd (evictAll s conns).ipConnections ip none }
        | none => s).closedSinks ci.res = true
  rw [hip]
  exact evictAll_closed conns s hci

/-- After the eviction phase, every evicted connection's clientMap entry is
erased. -/
theorem evictPhase_clientMap_evicted (ip : Nat) (s : HubState)
    {conns : List ConnInfo} {ci : ConnInfo} (hip : s.ipConnections ip = some conns)
    (hci : ci ∈ conns) : (evictPhase ip s).clientMap ci.res = none := by
  show (match s.ipConnections ip with
        | some conns =>
          { evictAll s conns with
            ipConnections := fupd (evictAll s conns).ipConnections ip none }
        | none => s).clientMap ci.res = none
  rw [hip]
  exact evictAll_clientMap_evicted conns s hci

/-- Subscribing a fresh sink preserves the hub invariant. -/
theorem hubWF_sub {s : HubState} (wf : HubWF s) (c res cid ip : Nat)
    (fresh : FreshSink s res) : HubWF (subscribeClient c res cid ip s) := by
  obtain ⟨hfcm, hfch, hfip⟩ := fresh
  refine ⟨?_, ?_, ?_, ?_⟩
  · -- busCount
    intro x
    rw [sub_busSubs]
    by_cases hx : x = c
    · subst hx
      rw [sub_channels_self]
      by_cases hsx : (s.channels x).isSome
      · rw [if_pos hsx]
        rw [wf.busCount x, if_pos hsx]
        rfl
      · rw [if_neg hsx, fupd_self]
        have h0 : s.busSubs x = 0 := by
          rw [wf.busCount x, if_neg hsx]
        rw [h0]
        rfl
    · rw [sub_channels_ne c res cid ip s hx, evictPhase_channels_isSome ip s x]
      by_cases hsc : (s.channels c).isSome
      · rw [if_pos hsc]
        exact wf.busCount x
      · rw [if_neg hsc, fupd_ne hx]
        exact wf.busCount x
  · -- cbIff
    intro x
    rw [sub_redisCallbacks]
    by_cases hx : x = c
    · subst hx
      rw [sub_channels_self]
      by_cases hsx : (s.channels x).isSome
      · rw [if_pos hsx]
        rw [wf.cbIff x, hsx]
        rfl
      · rw [if_neg hsx, fupd_self]
        rfl
    · rw [sub_channels_ne c res cid ip s hx, evictPhase_channels_isSome ip s x]
      by_cases hsc : (s.channels c).isSome
      · rw [if_pos hsc]
        exact wf.cbIff x
      · rw [if_neg hsc, fupd_ne hx]
        exact wf.cbIff x
  · -- sinkInfo
    intro x clx r hx hr
    by_cases hxc : x = c
    · subst hxc
      rw [sub_channels_self] at hx
      cases hx
      rcases mem_sadd.mp hr with hrw | hrres
      · -- an older member that survived eviction
        have hep : ∃ w0, (evictPhase ip s).channels x = some w0 ∧ r ∈ w0 := by
          cases he : (evictPhase ip s).channels x with
          | none =>
            rw [he] at hrw
            cases hrw
          | some w0 =>
            rw [he] at hrw
            exact ⟨w0, rfl, hrw⟩
        obtain ⟨w0, hw0, hrw0⟩ := hep
        obtain ⟨cl0, hcl0, hr0⟩ := evictPhase_channels_mem ip s hw0 hrw0
        obtain ⟨info, hi, hic, conns, hconns, hcimem⟩ := wf.sinkInfo x cl0 r hcl0 hr0
        have hrne : r ≠ res := fun he => hfch x cl0 hcl0 (he ▸ hr0)
        have hnev : ∀ conns0, s.ipConnections ip = some conns0 →
            ∀ ci ∈ conns0, ci.res ≠ r := by
          intro conns0 hip0 ci hcimem0 hcir
          obtain ⟨hAB, hcieq⟩ := wf.ipRes ip conns0 ci hip0 hcimem0
            info.ip conns ⟨r, x⟩ hconns hcimem hcir.symm
          exact (evictPhase_removed ip s hip0 (hcieq ▸ hcimem0) hw0) hrw0
        refine ⟨info, ?_, hic, conns, ?_, hcimem⟩
        · rw [sub_clientMap, fupd_ne hrne, evictPhase_clientMap_other ip s hnev]
          exact hi
        · have hipne : info.ip ≠ ip := fun he =>
            hnev conns (he ▸ hconns) ⟨r, x⟩ hcimem rfl
          rw [sub_ipConnections_ne x res cid ip s hipne]
          exact hconns
      · -- the fresh sink itself
        subst hrres
        refine ⟨⟨cid, x, ip⟩, ?_, rfl, [⟨r, x⟩], ?_, ?_⟩
        · rw [sub_clientMap]
          exact fupd_self _ _ _
        · exact sub_ipConnections_self x r cid ip s
        · exact List.mem_singleton.mpr rfl
    · rw [sub_channels_ne c res cid ip s hxc] at hx
      obtain ⟨cl0, hcl0, hr0⟩ := evictPhase_channels_mem ip s hx hr
      obtain ⟨info, hi, hic, conns, hconns, hcimem⟩ := wf.sinkInfo x cl0 r hcl0 hr0
      have hrne : r ≠ res := fun he => hfch x cl0 hcl0 (he ▸ hr0)
      have hnev : ∀ conns0, s.ipConnections ip = some conns0 →
          ∀ ci ∈ conns0, ci.res ≠ r := by
        intro conns0 hip0 ci hcimem0 hcir
        obtain ⟨hAB, hcieq⟩ := wf.ipRes ip conns0 ci hip0 hcimem0
          info.ip conns ⟨r, x⟩ hconns hcimem hcir.symm
        exact (evictPhase_removed ip s hip0 (hcieq ▸ hcimem0) hx) hr
      refine ⟨info, ?_, hic, conns, ?_, hcimem⟩
      · rw [sub_clientMap, fupd_ne hrne, evictPhase_clientMap_other ip s hnev]
        exact hi
      · have hipne : info.ip ≠ ip := fun he =>
          hnev conns (he ▸ hconns) ⟨r, x⟩ hcimem rfl
        rw [sub_ipConnections_ne c res cid ip s hipne]
        exact hconns
  · -- ipRes
    intro A conns ci hA hci B conns2 ci2 hB hci2 hre
    by_cases hAip : A = ip
    · subst hAip
      rw [sub_ipConnections_self] at hA
      cases hA
      have hci' : ci = ⟨res, c⟩ := List.mem_singleton.mp hci
      subst hci'
      by_cases hBip : B = A
      · subst hBip
        rw [sub_ipConnections_self] at hB
        cases hB
        exact ⟨rfl, List.mem_singleton.mp hci2⟩
      · rw [sub_ipConnections_ne c res cid A s hBip] at hB
        exact absurd hre (hfip B conns2 hB ci2 hci2)
    · rw [sub_ipConnections_ne c res cid ip s hAip] at hA
      by_cases hBip : B = ip
      · subst hBip
        rw [sub_ipConnections_self] at hB
        cases hB
        have hci2' : ci2 = ⟨res, c⟩ := List.mem_singleton.mp hci2
        subst hci2'
        exact absurd hre.symm (hfip A conns hA ci hci)
      · rw [sub_ipConnections_ne c res cid ip s hBip] at hB
        exact wf.ipRes A conns ci hA hci B conns2 ci2 hB hci2 hre

/-- Unsubscribing a sink under the channel it was registered with preserves
the hub invariant. -/
theorem hubWF_unsub {s : HubState} (wf : HubWF s) (c res : Nat)
    (guard : ∀ info, s.clientMap res = some info → info.channel = c) :
    HubWF (unsubscribeClient c res s) := by
  cases hch : s.channels c with
  | none =>
    rw [unsub_noChannel c res s hch]
    exact wf
  | some clients =>
    obtain ⟨hch', hcm, hbus, hcb, hcs, hip⟩ := unsub_spec c res s hch
    have hbus1 : s.busSubs c = 1 := by
      rw [wf.busCount c, hch]
      rfl
    have hcbt : s.redisCallbacks c = true := by
      rw [wf.cbIff c, hch]
      rfl
    -- forward preservation of ip index entries of other sinks
    have keep : ∀ K connsK, s.ipConnections K = some connsK →
        ∀ ci0 : ConnInfo, ci0 ∈ connsK → ci0.res ≠ res →
        ∃ connsK2, (unsubscribeClient c res s).ipConnections K = some connsK2 ∧
          ci0 ∈ connsK2 := by
      intro K connsK hK ci0 hci0 hne0
      rw [hip]
      cases hcir : s.clientMap res with
      | none => exact ⟨connsK, hK, hci0⟩
      | some infoRes =>
        dsimp only
        cases hipr : s.ipConnections infoRes.ip with
        | none => exact ⟨connsK, hK, hci0⟩
        | some ipConns =>
          dsimp only
          by_cases hKe : K = infoRes.ip
          · subst hKe
            rw [hK] at hipr
            cases hipr
            have hkeep : ci0 ∈ connsK.eraseP (fun ci : ConnInfo => ci.res == res) :=
              (List.mem_eraseP_of_neg (by simp [hne0])).mpr hci0
            have hq : ¬ (connsK.eraseP (fun ci : ConnInfo => ci.res == res)).isEmpty = true := by
              intro hq
              rw [List.isEmpty_iff.mp hq] at hkeep
              cases hkeep
            rw [if_neg hq, fupd_self]
            exact ⟨_, rfl, hkeep⟩
          · by_cases hq : (ipConns.eraseP (fun ci : ConnInfo => ci.res == res)).isEmpty
            · rw [if_pos hq, fupd_ne hKe]
              exact ⟨connsK, hK, hci0⟩
            · rw [if_neg hq, fupd_ne hKe]
              exact ⟨connsK, hK, hci0⟩
    -- post ip index entries come from pre entries at the same key
    have reduce : ∀ K connsK,
        (unsubscribeClient c res s).ipConnections K = some connsK →
        ∃ connsK0, s.ipConnections K = some connsK0 ∧ connsK ⊆ connsK0 := by
      intro K connsK hK
      rw [hip] at hK
      cases hcir : s.clientMap res with
      | none =>
        rw [hcir] at hK
        exact ⟨connsK, hK, fun _ h => h⟩
      | some infoRes =>
        rw [hcir] at hK
        dsimp only at hK
        cases hipr : s.ipConnections infoRes.ip with
        | none =>
          rw [hipr] at hK
          exact ⟨connsK, hK, fun _ h => h⟩
        | some ipConns =>
          rw [hipr] at hK
          dsimp only at hK
          by_cases hq : (ipConns.eraseP (fun ci : ConnInfo => ci.res == res)).isEmpty
          · rw [if_pos hq] at hK
            by_cases hKe : K = infoRes.ip
            · subst hKe
              rw [fupd_self] at hK
              cases hK
            · rw [fupd_ne hKe] at hK
              exact ⟨connsK, hK, fun _ h => h⟩
          · rw [if_neg hq] at hK
            by_cases hKe : K = infoRes.ip
            · subst hKe
              rw [fupd_self] at hK
              cases hK
              exact ⟨ipConns, hipr, List.eraseP_subset _⟩
            · rw [fupd_ne hKe] at hK
              exact ⟨connsK, hK, fun _ h => h⟩
    refine ⟨?_, ?_, ?_, ?_⟩
    · -- busCount
      intro x
      cases hE : (serase clients res).isEmpty with
      | true =>
        have hcond : ((serase clients res).isEmpty && s.redisCallbacks c) = true := by
          rw [hE, hcbt]
          rfl
        have h1 : (unsubscribeClient c res s).busSubs x =
            fupd s.busSubs c (s.busSubs c - 1) x := by
          rw [hbus, if_pos hcond]
        have h2 : (unsubscribeClient c res s).channels x = fupd s.channels c none x := by
          rw [hch', if_pos hE]
        rw [h1, h2]
        by_cases hx : x = c
        · subst hx
          rw [fupd_self, fupd_self, hbus1]
          rfl
        · rw [fupd_ne hx, fupd_ne hx]
          exact wf.busCount x
      | false =>
        have hcond : ((serase clients res).isEmpty && s.redisCallbacks c) = false := by
          rw [hE]
          rfl
        have h1 : (unsubscribeClient c res s).busSubs x = s.busSubs x := by
          rw [hbus, if_neg (by simp [hcond])]
        have h2 : (unsubscribeClient c res s).channels x =
            fupd s.channels c (some (serase clients res)) x := by
          rw [hch', if_neg (by simp [hE])]
        rw [h1, h2]
        by_cases hx : x = c
        · subst hx
          rw [fupd_self, hbus1]
          rfl
        · rw [fupd_ne hx]
          exact wf.busCount x
    · -- cbIff
      intro x
      cases hE : (serase clients res).isEmpty with
      | true =>
        have hcond : ((serase clients res).isEmpty && s.redisCallbacks c) = true := by
          rw [hE, hcbt]
          rfl
        have h1 : (unsubscribeClient c res s).redisCallbacks x =
            fupd s.redisCallbacks c false x := by
          rw [hcb, if_pos hcond]
        have h2 : (unsubscribeClient c res s).channels x = fupd s.channels c none x := by
          rw [hch', if_pos hE]
        rw [h1, h2]
        by_cases hx : x = c
        · subst hx
          rw [fupd_self, fupd_self]
          rfl
        · rw [fupd_ne hx, fupd_ne hx]
          exact wf.cbIff x
      | false =>
        have hcond : ((serase clients res).isEmpty && s.redisCallbacks c) = false := by
          rw [hE]
          rfl
        have h1 : (unsubscribeClient c res s).redisCallbacks x = s.redisCallbacks x := by
          rw [hcb, if_neg (by simp [hcond])]
        have h2 : (unsubscribeClient c res s).channels x =
            fupd s.channels c (some (serase clients res)) x := by
          rw [hch', if_neg (by simp [hE])]
        rw [h1, h2]
        by_cases hx : x = c
        · subst hx
          rw [fupd_self, hcbt]
          rfl
        · rw [fupd_ne hx]
          exact wf.cbIff x
    · -- sinkInfo
      intro x clx r hx hr
      have hpre : ∃ cl0, s.channels x = some cl0 ∧ r ∈ cl0 ∧ r ≠ res := by
        by_cases hxc : x = c
        · subst hxc
          cases hE : (serase clients res).isEmpty with
          | true =>
            rw [hch', if_pos hE, fupd_self] at hx
            cases hx
          | false =>
            rw [hch', if_neg (by simp [hE]), fupd_self] at hx
            cases hx
            exact ⟨clients, hch, (mem_serase.mp hr).1, (mem_serase.mp hr).2⟩
        · have hx0 : s.channels x = some clx := by
            cases hE : (serase clients res).isEmpty with
            | true =>
              rw [hch', if_pos hE, fupd_ne hxc] at hx
              exact hx
            | false =>
              rw [hch', if_neg (by simp [hE]), fupd_ne hxc] at hx
              exact hx
          refine ⟨clx, hx0, hr, ?_⟩
          intro he
          subst he
          obtain ⟨info, hi, hic, _⟩ := wf.sinkInfo x clx r hx0 hr
          exact hxc (hic ▸ guard info hi)
      obtain ⟨cl0, hcl0, hr0, hrne⟩ := hpre
      obtain ⟨info, hi, hic, conns, hconns, hcimem⟩ := wf.sinkInfo x cl0 r hcl0 hr0
      obtain ⟨conns2, hconns2, hmem2⟩ :=
        keep info.ip conns hconns ⟨r, x⟩ hcimem hrne
      refine ⟨info, ?_, hic, conns2, hconns2, hmem2⟩
      rw [hcm, fupd_ne hrne]
      exact hi
    · -- ipRes
      intro A conns ci hA hci B conns2 ci2 hB hci2 hre
      obtain ⟨cA, hcA, hsubA⟩ := reduce A conns hA
      obtain ⟨cB, hcB, hsubB⟩ := reduce B conns2 hB
      exact wf.ipRes A cA ci hcA (hsubA hci) B cB ci2 hcB (hsubB hci2) hre

/-- Every reachable hub state satisfies the invariant. -/
theorem hubWF_reach {s : HubState} (h : Reach s) : HubWF s := by
  induction h with
  | init => exact hubWF_empty
  | sub c res clientId ip _ fresh ih => exact hubWF_sub ih c res clientId ip fresh
  | unsub c res _ guard ih => exact hubWF_unsub ih c res guard
  | wfail c res _ hres ih => exact hubWF_wfail ih c res hres

/-! ### Reachability helpers for the demonstration states -/

/-- Every sink is fresh in the empty hub. -/
theorem freshSink_emptyHub (r : Nat) : FreshSink emptyHub r := by
  refine ⟨rfl, ?_, ?_⟩
  · intro c cl h
    exact absurd h (by simp [emptyHub])
  · intro ip conns h
    exact absurd h (by simp [emptyHub])

/-- Sink 2 is fresh in the one-subscription demonstration state. -/
theorem freshSink_demoHub0 : FreshSink demoHub0 2 := by
  refine ⟨rfl, ?_, ?_⟩
  · intro c cl h
    by_cases hc : c = 0
    · subst hc
      have h2 : some [1] = some cl := h
      cases h2
      decide
    · have h2 : demoHub0.channels c = emptyHub.channels c := by
        rw [demoHub0, sub_channels_ne 0 1 10 5 emptyHub hc]
        rfl
      rw [h2] at h
      exact absurd h (by simp [emptyHub])
  · intro ip conns h ci hci
    by_cases hip : ip = 5
    · subst hip
      have h2 : some [(⟨1, 0⟩ : ConnInfo)] = some conns := h
      cases h2
      have : ci = ⟨1, 0⟩ := List.mem_singleton.mp hci
      subst this
      decide
    · have h2 : demoHub0.ipConnections ip = emptyHub.ipConnections ip := by
        rw [demoHub0, sub_ipConnections_ne 0 1 10 5 emptyHub hip]
      rw [h2] at h
      exact absurd h (by simp [emptyHub])

/-- The two-subscription demonstration state is reachable. -/
theorem reach_demoHub : Reach demoHub :=
  Reach.sub 1 2 20 5 (Reach.sub 0 1 10 5 Reach.init (freshSink_emptyHub 1))
    freshSink_demoHub0

/-- String equality tests flip: a == b equals decide (b = a). -/
theorem beq_eq_decide_swap (a b : String) : (a == b) = decide (b = a) := by
  by_cases h : a = b
  · subst h
    simp
  · have h2 : ¬ b = a := fun hh => h hh.symm
    simp [h, h2]

/-- Lowercasing and then testing membership is testing a case-folded match. -/
theorem contains_map_toLower (l : List String) (s : String) :
    (l.map String.toLower).contains s = l.any (fun x => decide (x.toLower = s)) := by
  induction l with
  | nil => rfl
  | cons a t ih =>
    simp only [List.map_cons, List.contains_cons, List.any_cons, ih,
      beq_eq_decide_swap]

/-- Claim C4: the eligibility predicate is true exactly when the day condition
and the hour condition independently hold (a view with no schedule rule
satisfying both vacuously). -/
theorem isViewScheduled_iff_days_and_hours (view : View) (now : DateTime) :
    isViewScheduled view now = (claimDaysOk view now && claimHoursOk view now) := by
  obtain ⟨vid, md?⟩ := view
  cases md? with
  | none => rfl
  | some md =>
  obtain ⟨vt, ra, rat, sch?⟩ := md
  cases sch? with
  | none => rfl
  | some sch =>
  obtain ⟨days?, hours?⟩ := sch
  cases days? with
  | none =>
    cases hours? with
    | none => rfl
    | some hrs => rfl
  | some ds =>
    cases ds with
    | nil =>
      cases hours? with
      | none => rfl
      | some hrs => rfl
    | cons d dtl =>
      simp only [isViewScheduled, claimDaysOk, claimHoursOk, contains_map_toLower]
      simp only [List.length_cons, List.isEmpty_cons]
      cases hany : (d :: dtl).any (fun x => decide (x.toLower = currentDayName now)) with
      | false => simp
      | true =>
        cases hours? with
        | none => simp
        | some hrs => simp [rangeActive]

/-- Behaviour of the chunker loop on a non-empty remainder, given enough fuel:
payloads concatenate back to the remainder, the frame count is the ceiling of
length over chunk size, every payload fits, and the tags are CONTINUE up to a
final END. -/
theorem sendChunksLoop_spec (c : Nat) (hc : 1 ≤ c) :
    ∀ fuel rest, rest ≠ ([] : List Nat) → rest.length ≤ fuel →
      ((sendChunksLoop c fuel rest).map Prod.snd).flatten = rest ∧
      (sendChunksLoop c fuel rest).length = (rest.length + c - 1) / c ∧
      (∀ f ∈ sendChunksLoop c fuel rest, f.2.length ≤ c) ∧
      (sendChunksLoop c fuel rest).map Prod.fst =
        List.replicate ((sendChunksLoop c fuel rest).length - 1) FLAG_CONTINUE
          ++ [FLAG_END] := by
  intro fuel
  induction fuel with
  | zero =>
    intro rest hne hlen
    exact absurd (List.eq_nil_of_length_eq_zero (Nat.le_zero.mp hlen)) hne
  | succ fuel1 ih =>
    intro rest hne hlen
    have hpos : 0 < rest.length := List.length_pos.mpr hne
    have hemp : rest.isEmpty = false := by
      cases rest with
      | nil => exact absurd rfl hne
      | cons a l => rfl
    by_cases hle : rest.length ≤ c
    · have hloop : sendChunksLoop c (fuel1 + 1) rest = [(FLAG_END, rest)] := by
        simp [sendChunksLoop, hemp, hle]
      refine ⟨?_, ?_, ?_, ?_⟩
      · simp [hloop]
      · have hdiv : (rest.length + c - 1) / c = 1 := by
          have he : rest.length + c - 1 = (rest.length - 1) + c := by omega
          rw [he, Nat.add_div_right _ hc, Nat.div_eq_of_lt (by omega)]
        simp [hloop, hdiv]
      · intro f hf
        simp [hloop] at hf
        subst hf
        simpa using hle
      · simp [hloop]
    · have hgt : c < rest.length := Nat.lt_of_not_le hle
      have hloop : sendChunksLoop c (fuel1 + 1) rest =
          (FLAG_CONTINUE, rest.take c) ::
            sendChunksLoop c fuel1 (rest.drop c) := by
        simp [sendChunksLoop, hemp, hle]
      have hdne : rest.drop c ≠ [] := by
        intro h
        have := List.length_drop c rest
        rw [h] at this
        simp at this
        omega
      have hdlen : (rest.drop c).length ≤ fuel1 := by
        rw [List.length_drop]
        omega
      obtain ⟨ihjoin, ihlen, ihbound, ihtags⟩ := ih (rest.drop c) hdne hdlen
      have hfne : 1 ≤ (sendChunksLoop c fuel1 (rest.drop c)).length := by
        have := congrArg List.length ihtags
        simp at this
        omega
      refine ⟨?_, ?_, ?_, ?_⟩
      · simp [hloop, ihjoin]
      · rw [hloop]
        simp only [List.length_cons, ihlen, List.length_drop]
        have he1 : rest.length - c + c - 1 = rest.length - 1 := by omega
        have he2 : rest.length + c - 1 = (rest.length - 1) + c := by omega
        rw [he1, he2, Nat.add_div_right _ hc]
      · intro f hf
        rw [hloop] at hf
        rcases List.mem_cons.mp hf with h1 | h2
        · subst h1
          rw [List.length_take]
          omega
        · exact ihbound f h2
      · rw [hloop]
        simp only [List.map_cons, List.length_cons, Nat.add_sub_cancel, ihtags]
        have : (sendChunksLoop c fuel1 (rest.drop c)).length =
            ((sendChunksLoop c fuel1 (rest.drop c)).length - 1) + 1 := by omega
        rw [this, List.replicate_succ]
        simp

/-- Claim C3: for a negotiated maximum payload size M of at least 2, a
serialized event of L bytes leaves the chunker as one SINGLE packet carrying
all L bytes when L is at most M - 1 (including L = 0), and otherwise as
ceil(L / (M - 1)) frames of at most M - 1 payload bytes each, tagged
START, CONTINUE..., END, whose payloads concatenate in emission order back to
the original bytes. -/
theorem sendViewUpdate_chunking (M : Nat) (buffer : List Nat) (hM : 2 ≤ M) :
    (buffer.length ≤ M - 1 →
      sendViewUpdate M buffer = [(FLAG_SINGLE, buffer)]) ∧
    (M - 1 < buffer.length →
      ((sendViewUpdate M buffer).map Prod.snd).flatten = buffer ∧
      (sendViewUpdate M buffer).length = (buffer.length + (M - 1) - 1) / (M - 1) ∧
      (∀ f ∈ sendViewUpdate M buffer, f.2.length ≤ M - 1) ∧
      (sendViewUpdate M buffer).map Prod.fst =
        FLAG_START ::
          (List.replicate ((sendViewUpdate M buffer).length - 2) FLAG_CONTINUE
            ++ [FLAG_END])) := by
  have hc : 1 ≤ M - 1 := by omega
  constructor
  · intro hle
    simp [sendViewUpdate, hle]
  · intro hgt
    have hsend : sendViewUpdate M buffer =
        (FLAG_START, buffer.take (M - 1)) ::
          sendChunksLoop (M - 1) buffer.length (buffer.drop (M - 1)) := by
      simp [sendViewUpdate, Nat.not_le.mpr hgt]
    have hdne : buffer.drop (M - 1) ≠ [] := by
      intro h
      have := List.length_drop (M - 1) buffer
      rw [h] at this
      simp at this
      omega
    have hdlen : (buffer.drop (M - 1)).length ≤ buffer.length := by
      rw [List.length_drop]
      omega
    obtain ⟨hjoin, hlen, hbound, htags⟩ :=
      sendChunksLoop_spec (M - 1) hc buffer.length (buffer.drop (M - 1)) hdne hdlen
    have hfne : 1 ≤ (sendChunksLoop (M - 1) buffer.length (buffer.drop (M - 1))).length := by
      have := congrArg List.length htags
      simp at this
      omega
    refine ⟨?_, ?_, ?_, ?_⟩
    · simp [hsend, hjoin]
    · rw [hsend]
      simp only [List.length_cons, hlen, List.length_drop]
      have he1 : buffer.length - (M - 1) + (M - 1) - 1 = buffer.length - 1 := by omega
      have he2 : buffer.length + (M - 1) - 1 = (buffer.length - 1) + (M - 1) := by omega
      rw [he1, he2, Nat.add_div_right _ hc]
    · intro f hf
      rw [hsend] at hf
      rcases List.mem_cons.mp hf with h1 | h2
      · subst h1
        rw [List.length_take]
        omega
      · exact hbound f h2
    · rw [hsend]
      simp only [List.map_cons, List.length_cons, htags]
      have h2 : (sendChunksLoop (M - 1) buffer.length (buffer.drop (M - 1))).length + 1 - 2 =
          (sendChunksLoop (M - 1) buffer.length (buffer.drop (M - 1))).length - 1 := by omega
      rw [h2]

/-- Witness for claim C3 at M = 4 and a 10-byte payload: the theorem applies
and its chunking conclusions hold there. -/
theorem sendViewUpdate_chunking_witness :
    ((sendViewUpdate 4 (List.range 10)).map Prod.snd).flatten = List.range 10 ∧
    (sendViewUpdate 4 (List.range 10)).length = 4 := by
  have h := (sendViewUpdate_chunking 4 (List.range 10) (by decide)).2 (by decide)
  refine ⟨h.1, ?_⟩
  rw [h.2.1]
  decide

/-! ### Claims C5, C8, C9 about the Broadcast Hub -/

/-- Claim C8, counterexample: in the reachable state demoHub — reached only
by subscribes — channel 0's sink set exists and is empty, yet its bus
subscription (and redis callback) is still open, contradicting the claimed
invariant that an empty sink set has no bus subscription. -/
theorem claimC8_counterexample :
    Reach demoHub ∧
    demoHub.channels 0 = some [] ∧
    demoHub.busSubs 0 = 1 ∧
    demoHub.redisCallbacks 0 = true :=
  ⟨reach_demoHub, rfl, rfl, rfl⟩

/-- Claim C8 as amended: in every reachable hub state, the bus subscription
count of a channel's topic is one exactly while the channel has a sink-set
entry (possibly an empty one, after a same-origin eviction or write-failure
removal) and zero otherwise; a channel with no entry at all holds no
callback and no subscription, and subscribing the first sink for such a
channel opens exactly one subscription. -/
theorem claimC8_subscription_refcount {s : HubState} (h : Reach s) (c : Nat) :
    s.busSubs c = (if (s.channels c).isSome then 1 else 0) ∧
    (s.channels c = none → s.redisCallbacks c = false ∧ s.busSubs c = 0) ∧
    (∀ res cid ip, s.channels c = none →
      (subscribeClient c res cid ip s).busSubs c = 1) := by
  have wf := hubWF_reach h
  refine ⟨wf.busCount c, ?_, ?_⟩
  · intro hc
    constructor
    · rw [wf.cbIff c, hc]
      rfl
    · rw [wf.busCount c, hc]
      rfl
  · intro res cid ip hc
    have h0 : s.busSubs c = 0 := by
      rw [wf.busCount c, hc]
      rfl
    rw [sub_busSubs, hc]
    show (if (none : Option (List Nat)).isSome then s.busSubs
          else fupd s.busSubs c (s.busSubs c + 1)) c = 1
    rw [if_neg (by simp), fupd_self, h0]

/-- Witness for claim C8's amended invariant: subscribing the first sink of a
fresh channel on the empty hub opens exactly one bus subscription. -/
theorem claimC8_subscription_refcount_witness :
    (subscribeClient 0 7 8 9 emptyHub).busSubs 0 = 1 :=
  (claimC8_subscription_refcount Reach.init 0).2.2 7 8 9 rfl

/-- Claim C9, counterexample: in the reachable state demoHub, sink 1 has
already been removed (evicted: closed, out of channel 0's set and out of the
clientMap), yet unsubscribe(0, 1) is not a no-op — it tears down channel 0's
dangling bus subscription, changing the set of active subscriptions. -/
theorem claimC9_counterexample :
    Reach demoHub ∧
    demoHub.channels 0 = some [] ∧
    demoHub.clientMap 1 = none ∧
    demoHub.closedSinks 1 = true ∧
    demoHub.busSubs 0 = 1 ∧
    (unsubscribeClient 0 1 demoHub).busSubs 0 = 0 ∧
    (unsubscribeClient 0 1 demoHub).channels 0 = none :=
  ⟨reach_demoHub, rfl, rfl, rfl, rfl, rfl, rfl⟩

/-- Lists keep only the second of two identical deletions. -/
theorem serase_idem (l : List Nat) (x : Nat) :
    serase (serase l x) x = serase l x := by
  simp [serase, List.filter_filter]

/-- Two hub states with equal fields are equal. -/
theorem hubState_eq {s t : HubState} (h1 : s.channels = t.channels)
    (h2 : s.clientMap = t.clientMap) (h3 : s.ipConnections = t.ipConnections)
    (h4 : s.redisCallbacks = t.redisCallbacks) (h5 : s.busSubs = t.busSubs)
    (h6 : s.closedSinks = t.closedSinks) : s = t := by
  cases s
  cases t
  cases h1
  cases h2
  cases h3
  cases h4
  cases h5
  cases h6
  rfl

/-- Claim C9 as amended: unsubscribe is idempotent — repeating
unsubscribe(channel, sink) is a no-op — and unsubscribing under a channel
with no state at all is a no-op; but for a sink already removed while the
channel's (empty) sink set entry survives, unsubscribe additionally tears
down the channel's dangling bus subscription (see the counterexample). -/
theorem claimC9_unsubscribe_idempotent (c res : Nat) (s : HubState) :
    unsubscribeClient c res (unsubscribeClient c res s) =
      unsubscribeClient c res s ∧
    (s.channels c = none → unsubscribeClient c res s = s) := by
  constructor
  · cases hch : s.channels c with
    | none =>
      rw [unsub_noChannel c res s hch, unsub_noChannel c res s hch]
    | some clients =>
      obtain ⟨hch', hcm, hbus, hcb, hcs, hip⟩ := unsub_spec c res s hch
      cases hE : (serase clients res).isEmpty with
      | true =>
        have hnone : (unsubscribeClient c res s).channels c = none := by
          rw [hch', if_pos hE]
          exact fupd_self _ _ _
        rw [unsub_noChannel c res (unsubscribeClient c res s) hnone]
      | false =>
        have hsome : (unsubscribeClient c res s).channels c =
            some (serase clients res) := by
          rw [hch', if_neg (by simp [hE])]
          exact fupd_self _ _ _
        obtain ⟨hch2, hcm2, hbus2, hcb2, hcs2, hip2⟩ :=
          unsub_spec c res (unsubscribeClient c res s) hsome
        have hE2 : (serase (serase clients res) res).isEmpty = false := by
          rw [serase_idem]
          exact hE
        have hcmres : (unsubscribeClient c res s).clientMap res = none := by
          rw [hcm]
          exact fupd_self _ _ _
        refine hubState_eq ?_ ?_ ?_ ?_ ?_ ?_
        · rw [hch2, if_neg (by simp [hE2]), serase_idem, hch',
            if_neg (by simp [hE]), fupd_fupd]
        · rw [hcm2, hcm, fupd_fupd]
        · rw [hip2, hcmres]
        · rw [hcb2, if_neg (by simp [hE2, Bool.false_and])]
        · rw [hbus2, if_neg (by simp [hE2, Bool.false_and])]
        · rw [hcs2]
  · intro hch
    exact unsub_noChannel c res s hch

/-- Witness for claim C9's amended statement, applied on the empty hub. -/
theorem claimC9_unsubscribe_idempotent_witness :
    unsubscribeClient 0 1 emptyHub = emptyHub :=
  (claimC9_unsubscribe_idempotent 0 1 emptyHub).2 rfl

/-- Claim C5: on any reachable hub state, after subscribing a fresh sink for
an origin ip, that sink is the only channel-set member whose client record
carries ip, and every connection previously stored for ip has been closed,
removed from every channel's sink set, and removed from the origin index. -/
theorem claimC5_origin_exclusivity {s : HubState} (h : Reach s)
    (c res cid ip : Nat) (fresh : FreshSink s res) :
    (∀ x cl r info, (subscribeClient c res cid ip s).channels x = some cl →
       r ∈ cl → (subscribeClient c res cid ip s).clientMap r = some info →
       info.ip = ip → r = res) ∧
    (∀ conns, s.ipConnections ip = some conns → ∀ ci ∈ conns,
       (subscribeClient c res cid ip s).closedSinks ci.res = true ∧
       (∀ x cl, (subscribeClient c res cid ip s).channels x = some cl →
         ci.res ∉ cl) ∧
       (∀ B conns2, (subscribeClient c res cid ip s).ipConnections B = some conns2 →
         ∀ ci2 ∈ conns2, ci2.res ≠ ci.res)) := by
  have wf := hubWF_reach h
  have wfPost := hubWF_sub wf c res cid ip fresh
  obtain ⟨hfcm, hfch, hfip⟩ := fresh
  constructor
  · intro x cl r info hx hr hcmr hipi
    obtain ⟨info2, hi2, _, conns2, hconns2, hmem2⟩ := wfPost.sinkInfo x cl r hx hr
    rw [hcmr] at hi2
    cases hi2
    rw [hipi, sub_ipConnections_self c res cid ip s] at hconns2
    cases hconns2
    have := List.mem_singleton.mp hmem2
    exact congrArg ConnInfo.res this
  · intro conns hip ci hci
    have hcine : ci.res ≠ res := hfip ip conns hip ci hci
    refine ⟨?_, ?_, ?_⟩
    · rw [sub_closedSinks]
      exact evictPhase_closed ip s hip hci
    · intro x cl hx hmem
      obtain ⟨infoP, hiP, _, _, _, _⟩ := wfPost.sinkInfo x cl ci.res hx hmem
      rw [sub_clientMap, fupd_ne hcine,
        evictPhase_clientMap_evicted ip s hip hci] at hiP
      cases hiP
    · intro B conns2 hB ci2 hci2 hre
      by_cases hBip : B = ip
      · subst hBip
        rw [sub_ipConnections_self] at hB
        cases hB
        have : ci2 = ⟨res, c⟩ := List.mem_singleton.mp hci2
        subst this
        exact hcine hre.symm
      · rw [sub_ipConnections_ne c res cid ip s hBip] at hB
        obtain ⟨hBA, _⟩ := wf.ipRes B conns2 ci2 hB hci2 ip conns ci hip hci hre.symm
        exact hBip hBA

/-- Witness for claim C5 at a concrete input: subscribing sink 1 for ip 3 on
the empty hub leaves it as the only sink recorded for ip 3. -/
theorem claimC5_origin_exclusivity_witness :
    (subscribeClient 0 1 2 3 emptyHub).channels 0 = some [1] ∧
    (subscribeClient 0 1 2 3 emptyHub).clientMap 1 = some ⟨2, 0, 3⟩ ∧
    (1 : Nat) = 1 :=
  ⟨rfl, rfl,
    (claimC5_origin_exclusivity Reach.init 0 1 2 3 (freshSink_emptyHub 1)).1
      0 [1] 1 ⟨2, 0, 3⟩ rfl (by decide) rfl rfl⟩

/-! ### Claim C6 about the fan-out callback -/

/-- One fan-out iteration, fully characterized. -/
theorem fanoutStep_spec {V : Type} (fails : List Nat) (c : Nat) (pm : BusMsg V)
    (st : HubState) (out : List (Nat × BusMsg V)) (x : Nat) :
    (fanoutStep fails c pm (st, out) x).1 =
      (if x ∈ fails then writeFailRemove c x st else st) ∧
    (fanoutStep fails c pm (st, out) x).2 =
      (if x ∈ fails then out else out ++ [(x, pm)]) := by
  by_cases hx : x ∈ fails <;> simp [fanoutStep, hx]

/-- The fan-out fold over a sink list: failing sinks leave the channel set
and the clientMap, nothing else changes, and the deliveries are exactly the
non-failing sinks in order. -/
theorem fanout_foldl_spec {V : Type} (fails : List Nat) (c : Nat)
    (pm : BusMsg V) :
    ∀ (l : List Nat) (st : HubState) (out : List (Nat × BusMsg V))
      (cl : List Nat), st.channels c = some cl →
      ((l.foldl (fanoutStep fails c pm) (st, out)).1.channels c =
        some (cl.filter (fun y => ¬(y ∈ fails ∧ y ∈ l)))) ∧
      (∀ y, y ≠ c →
        (l.foldl (fanoutStep fails c pm) (st, out)).1.channels y = st.channels y) ∧
      (∀ r, r ∈ l → r ∈ fails →
        (l.foldl (fanoutStep fails c pm) (st, out)).1.clientMap r = none) ∧
      (∀ r, ¬(r ∈ l ∧ r ∈ fails) →
        (l.foldl (fanoutStep fails c pm) (st, out)).1.clientMap r = st.clientMap r) ∧
      ((l.foldl (fanoutStep fails c pm) (st, out)).1.ipConnections = st.ipConnections) ∧
      ((l.foldl (fanoutStep fails c pm) (st, out)).1.busSubs = st.busSubs) ∧
      ((l.foldl (fanoutStep fails c pm) (st, out)).1.redisCallbacks = st.redisCallbacks) ∧
      ((l.foldl (fanoutStep fails c pm) (st, out)).1.closedSinks = st.closedSinks) ∧
      ((l.foldl (fanoutStep fails c pm) (st, out)).2 =
        out ++ (l.filter (fun y => y ∉ fails)).map (fun r => (r, pm))) := by
  intro l
  induction l with
  | nil =>
    intro st out cl hcl
    refine ⟨?_, fun y _ => rfl, fun r hr => absurd hr (by simp),
      fun r _ => rfl, rfl, rfl, rfl, rfl, by simp⟩
    show st.channels c = _
    rw [hcl]
    congr 1
    symm
    refine List.filter_eq_self.mpr ?_
    intro a _
    simp
  | cons a l ih =>
    intro st out cl hcl
    rw [List.foldl_cons]
    by_cases ha : a ∈ fails
    · have hstep : fanoutStep fails c pm (st, out) a = (writeFailRemove c a st, out) := by
        simp [fanoutStep, ha]
      rw [hstep]
      have hcl1 : (writeFailRemove c a st).channels c = some (serase cl a) :=
        wfail_channels_self c a st hcl
      obtain ⟨hcm1, hip1, hbus1, hcb1, hcs1⟩ := wfail_frame c a st
      obtain ⟨ih1, ih2, ih3, ih4, ih5, ih6, ih7, ih8, ih9⟩ :=
        ih (writeFailRemove c a st) out (serase cl a) hcl1
      refine ⟨?_, ?_, ?_, ?_, ?_, ?_, ?_, ?_, ?_⟩
      · rw [ih1]
        congr 1
        show List.filter _ (List.filter _ cl) = _
        rw [List.filter_filter]
        refine List.filter_congr ?_
        intro y _
        by_cases hya : y = a
        · subst hya
          simp [ha]
        · simp [hya]
      · intro y hy
        rw [ih2 y hy, wfail_channels_ne c a st hy]
      · intro r hr hrf
        rcases List.mem_cons.mp hr with he | hm
        · subst he
          by_cases hrl : r ∈ l
          · exact ih3 r hrl hrf
          · rw [ih4 r (by simp [hrl]), hcm1]
            exact fupd_self _ _ _
        · exact ih3 r hm hrf
      · intro r hr
        have hrl : ¬(r ∈ l ∧ r ∈ fails) := fun ⟨h1, h2⟩ => hr ⟨List.mem_cons_of_mem a h1, h2⟩
        have hra : r ≠ a := fun he => hr ⟨he ▸ List.mem_cons_self a l, he ▸ ha⟩
        rw [ih4 r hrl, hcm1, fupd_ne hra]
      · rw [ih5, hip1]
      · rw [ih6, hbus1]
      · rw [ih7, hcb1]
      · rw [ih8, hcs1]
      · rw [ih9]
        congr 2
        simp [ha]
    · have hstep : fanoutStep fails c pm (st, out) a = (st, out ++ [(a, pm)]) := by
        simp [fanoutStep, ha]
      rw [hstep]
      obtain ⟨ih1, ih2, ih3, ih4, ih5, ih6, ih7, ih8, ih9⟩ :=
        ih st (out ++ [(a, pm)]) cl hcl
      refine ⟨?_, ih2, ?_, ?_, ih5, ih6, ih7, ih8, ?_⟩
      · rw [ih1]
        congr 1
        refine List.filter_congr ?_
        intro y _
        by_cases hya : y = a
        · subst hya
          simp [ha]
        · simp [hya]
      · intro r hr hrf
        rcases List.mem_cons.mp hr with he | hm
        · exact absurd (he ▸ hrf) ha
        · exact ih3 r hm hrf
      · intro r hr
        exact ih4 r (fun ⟨h1, h2⟩ => hr ⟨List.mem_cons_of_mem a h1, h2⟩)
      · rw [ih9, List.filter_cons_of_pos (by simp [ha])]
        simp

/-- Claim C6, counterexample: in demoFanoutHub, a fan-out of a view-change
message in which sink 1's write fails removes sink 1 from channel 0's set
and from the clientMap, but its origin index entry under ip 5 is left in
place — the claim's "removed from the origin index" is false. -/
theorem claimC6_counterexample :
    (redisCallback (fun v : Nat => v) [1] 0 ⟨"view_change", some 0⟩
      demoFanoutHub).1.channels 0 = some [2] ∧
    (redisCallback (fun v : Nat => v) [1] 0 ⟨"view_change", some 0⟩
      demoFanoutHub).1.clientMap 1 = none ∧
    demoFanoutHub.ipConnections 5 = some [⟨1, 0⟩] ∧
    (redisCallback (fun v : Nat => v) [1] 0 ⟨"view_change", some 0⟩
      demoFanoutHub).1.ipConnections 5 = some [⟨1, 0⟩] :=
  ⟨rfl, rfl, rfl, rfl⟩

/-- Claim C6 as amended: during fan-out to a channel's sinks, each failing
sink — and only it — is removed from the channel's sink set and from the
client record map, while the origin index (and every other hub structure and
every other channel) is left unchanged; the processed message is still
delivered, in set order, exactly to the non-failing sinks, and the callback
is total (no error escapes). -/
theorem claimC6_fanout {V : Type} (rewriteView : V → V) (fails : List Nat)
    (c : Nat) (m : BusMsg V) (s : HubState) {clients : List Nat}
    (h : s.channels c = some clients) :
    ((redisCallback rewriteView fails c m s).1.ipConnections = s.ipConnections) ∧
    ((redisCallback rewriteView fails c m s).1.busSubs = s.busSubs) ∧
    ((redisCallback rewriteView fails c m s).1.redisCallbacks = s.redisCallbacks) ∧
    ((redisCallback rewriteView fails c m s).1.closedSinks = s.closedSinks) ∧
    ((redisCallback rewriteView fails c m s).1.channels c =
      some (clients.filter (fun r => r ∉ fails))) ∧
    (∀ x, x ≠ c →
      (redisCallback rewriteView fails c m s).1.channels x = s.channels x) ∧
    (∀ r, r ∈ clients → r ∈ fails →
      (redisCallback rewriteView fails c m s).1.clientMap r = none) ∧
    (∀ r, ¬(r ∈ clients ∧ r ∈ fails) →
      (redisCallback rewriteView fails c m s).1.clientMap r = s.clientMap r) ∧
    ((redisCallback rewriteView fails c m s).2 =
      (clients.filter (fun r => r ∉ fails)).map
        (fun r => (r, processMessage rewriteView m))) := by
  have hred : redisCallback rewriteView fails c m s =
      clients.foldl (fanoutStep fails c (processMessage rewriteView m)) (s, []) := by
    unfold redisCallback
    rw [h]
  obtain ⟨f1, f2, f3, f4, f5, f6, f7, f8, f9⟩ :=
    fanout_foldl_spec fails c (processMessage rewriteView m) clients s [] clients h
  rw [hred]
  have hfilter : clients.filter (fun y => ¬(y ∈ fails ∧ y ∈ clients)) =
      clients.filter (fun y => y ∉ fails) := by
    refine List.filter_congr ?_
    intro y hy
    simp [hy]
  refine ⟨f5, f6, f7, f8, ?_, f2, f3, f4, ?_⟩
  · rw [f1, hfilter]
  · rw [f9]
    simp

/-- Witness for claim C6's amended statement on a concrete fan-out: the
origin index survives a failing write untouched. -/
theorem claimC6_fanout_witness :
    (redisCallback (fun v : Nat => v) [1] 0 ⟨"view_change", some 0⟩
      demoFanoutHub).1.ipConnections = demoFanoutHub.ipConnections :=
  (claimC6_fanout (fun v : Nat => v) [1] 0 ⟨"view_change", some 0⟩
    demoFanoutHub rfl).1

/-! ### Scheduler helper lemmas -/

/-- In-place replacement of an existing key makes it readable. -/
theorem alookup_map_set {α : Type} (l : List (Nat × α)) (k : Nat) (v : α)
    (h : (l.find? (fun p => p.1 = k)).isSome = true) :
    alookup (l.map (fun p => if p.1 = k then (k, v) else p)) k = some v := by
  induction l with
  | nil => simp at h
  | cons p t ih =>
    by_cases hp : p.1 = k
    · simp [alookup, hp, List.find?_cons]
    · have ht : (t.find? (fun q => q.1 = k)).isSome = true := by
        simpa [List.find?_cons, hp] using h
      simpa [alookup, List.find?_cons, hp] using ih ht

/-- Appending a fresh key makes it readable. -/
theorem alookup_append_set {α : Type} (l : List (Nat × α)) (k : Nat) (v : α)
    (h : (l.find? (fun p => p.1 = k)).isSome = false) :
    alookup (l ++ [(k, v)]) k = some v := by
  induction l with
  | nil => simp [alookup]
  | cons p t ih =>
    by_cases hp : p.1 = k
    · simp [List.find?_cons, hp] at h
    · have ht : (t.find? (fun q => q.1 = k)).isSome = false := by
        simpa [List.find?_cons, hp] using h
      simpa [alookup, List.find?_cons, hp] using ih ht

/-- Setting a key in a small map makes it readable. -/
theorem alookup_aset_self {α : Type} (l : List (Nat × α)) (k : Nat) (v : α) :
    alookup (aset l k v) k = some v := by
  unfold aset
  by_cases h : (l.find? (fun p => p.1 = k)).isSome
  · rw [if_pos h]
    exact alookup_map_set l k v h
  · rw [if_neg h]
    refine alookup_append_set l k v ?_
    cases hb : (l.find? (fun p => p.1 = k)).isSome
    · rfl
    · exact absurd hb h

/-- Deleting a key from a small map erases it. -/
theorem alookup_aerase_self {α : Type} (l : List (Nat × α)) (k : Nat) :
    alookup (aerase l k) k = none := by
  induction l with
  | nil => rfl
  | cons p t ih =>
    simp only [aerase, ne_eq, decide_not] at ih
    by_cases hp : p.1 = k
    · simp [aerase, hp, ih]
    · simp only [aerase, alookup, List.filter_cons] at ih ⊢
      simp [List.find?_cons, hp, ih]

/-- The head of a filtered list is the first match. -/
theorem head?_filter {α : Type} (p : α → Bool) (l : List α) :
    (l.filter p).head? = l.find? p := by
  induction l with
  | nil => rfl
  | cons a t ih =>
    by_cases h : p a <;> simp [List.filter_cons, List.find?_cons, h, ih]

/-- The double filter of the source collapses to one predicate. -/
theorem scheduledFilter_eq (s : VMState) (now : DateTime) (ids : List Nat) :
    scheduledFilter s now ids = ids.filter (fun id =>
      match s.views id with
      | some v => isViewScheduled v now
      | none => false) := by
  unfold scheduledFilter
  rw [List.filter_filter]
  refine List.filter_congr ?_
  intro a _
  cases hv : s.views a <;> simp [hv]

/-- The scheduled filter only reads the views map. -/
theorem scheduledFilter_congr {s t : VMState} (h : s.views = t.views)
    (now : DateTime) (ids : List Nat) :
    scheduledFilter s now ids = scheduledFilter t now ids := by
  unfold scheduledFilter
  rw [h]

/-- The armed timer of a channel after scheduleViewRotation, for an existing
view with metadata. -/
theorem rotationsAfterScheduling_channel (cfg : Nat → List Nat) (now : DateTime)
    (viewId channel : Nat) (s : VMState) {v : View} {md : ViewMetadata}
    (hv : s.views viewId = some v) (hmd : v.metadata = some md) :
    rotationsAfterScheduling cfg now viewId channel s channel =
      (match delayOf md with
       | none => (if (s.channelRotations channel).isSome then some none else none)
       | some delay =>
         if 0 < delay then
           if (scheduledFilter s now (cfg channel)).length ≤ 1 then
             (if (s.channelRotations channel).isSome then some none else none)
           else some (some (viewId, delay))
         else (if (s.channelRotations channel).isSome then some none else none)) := by
  unfold rotationsAfterScheduling
  rw [hv]
  dsimp only
  rw [hmd]
  dsimp only
  have hclear : (if (s.channelRotations channel).isSome then
      fupd s.channelRotations channel (some none) else s.channelRotations) channel =
      (if (s.channelRotations channel).isSome then some none else none) := by
    by_cases hr : (s.channelRotations channel).isSome
    · simp only [if_pos hr]
      exact fupd_self _ _ _
    · simp only [if_neg hr]
      exact Option.not_isSome_iff_eq_none.mp hr
  cases hdel : delayOf md with
  | none => exact hclear
  | some delay =>
    dsimp only
    by_cases h0 : 0 < delay
    · simp only [if_pos h0]
      by_cases hlen : (scheduledFilter s now (cfg channel)).length ≤ 1
      · simp only [if_pos hlen]
        exact hclear
      · simp only [if_neg hlen]
        exact fupd_self _ _ _
    · simp only [if_neg h0]
      exact hclear

/-- After removeOverride, the view's override entry is gone from whatever
override map the channel still has. -/
theorem removeOverride_alookup (channel viewId : Nat) (s : VMState) :
    ∀ oi1, (removeOverride channel viewId s).manualOverrides channel = some oi1 →
      alookup oi1 viewId = none := by
  intro oi1 h
  unfold removeOverride at h
  cases hoi : s.manualOverrides channel with
  | none =>
    rw [hoi] at h
    have h2 : s.manualOverrides channel = some oi1 := h
    rw [hoi] at h2
    cases h2
  | some oi =>
    rw [hoi] at h
    dsimp only at h
    by_cases he : (aerase oi viewId).isEmpty
    · rw [if_pos he] at h
      have h2 : fupd s.manualOverrides channel none channel = some oi1 := h
      rw [fupd_self] at h2
      cases h2
    · rw [if_neg he] at h
      have h2 : fupd s.manualOverrides channel (some (aerase oi viewId)) channel
          = some oi1 := h
      rw [fupd_self] at h2
      cases h2
      exact alookup_aerase_self oi viewId

/-- The head of the scheduled filter is the first eligible member. -/
theorem scheduledFilter_head (cfg : Nat → List Nat) (now : DateTime)
    (channel : Nat) (s : VMState) :
    (scheduledFilter s now (cfg channel)).head? = firstEligibleId cfg now channel s := by
  rw [scheduledFilter_eq]
  exact head?_filter _ _

/-- getCurrentView leaves the state untouched except possibly for a single
re-pointing of the channel at hand. -/
theorem getCurrentView_state_cases (cfg : Nat → List Nat) (now : DateTime)
    (channel : Nat) (s : VMState) :
    (getCurrentView cfg now channel s).2.1 = s ∨
    ∃ fid, (getCurrentView cfg now channel s).2.1 =
      { s with channelCurrentViews := fupd s.channelCurrentViews channel (some fid) } := by
  have hfall :
      ((match scheduledFilter s now (cfg channel) with
        | [] => ((none : Option View), s, ([] : List VMEffect))
        | firstId :: _ =>
          match s.views firstId with
          | some firstView =>
            (some firstView,
             { s with channelCurrentViews := fupd s.channelCurrentViews channel (some firstId) },
             [])
          | none => (none, s, [])).2.1 = s) ∨
      ∃ fid, ((match scheduledFilter s now (cfg channel) with
        | [] => ((none : Option View), s, ([] : List VMEffect))
        | firstId :: _ =>
          match s.views firstId with
          | some firstView =>
            (some firstView,
             { s with channelCurrentViews := fupd s.channelCurrentViews channel (some firstId) },
             [])
          | none => (none, s, [])).2.1 =
        { s with channelCurrentViews := fupd s.channelCurrentViews channel (some fid) }) := by
    cases hsf : scheduledFilter s now (cfg channel) with
    | nil => exact Or.inl rfl
    | cons f r =>
      dsimp only
      cases hv2 : s.views f with
      | some fv =>
        dsimp only
        exact Or.inr ⟨f, rfl⟩
      | none => exact Or.inl rfl
  simp only [getCurrentView]
  cases hcv : s.channelCurrentViews channel with
  | none =>
    dsimp only
    exact hfall
  | some vid =>
    dsimp only
    cases hv : s.views vid with
    | none =>
      dsimp only
      exact hfall
    | some v =>
      dsimp only
      by_cases hmem : vid ∈ cfg channel
      · simp only [if_pos hmem]
        cases hov : (match s.manualOverrides channel with
            | some oi => (alookup oi vid).isSome
            | none => false) with
        | true => exact Or.inl rfl
        | false =>
          simp only [if_neg Bool.false_ne_true]
          cases hsch : isViewScheduled v now with
          | true => exact Or.inl rfl
          | false =>
            simp only [if_neg Bool.false_ne_true]
            exact hfall
      · simp only [if_neg hmem]
        exact hfall

/-- getCurrentView never changes the views store. -/
theorem getCurrentView_views (cfg : Nat → List Nat) (now : DateTime)
    (channel : Nat) (s : VMState) :
    (getCurrentView cfg now channel s).2.1.views = s.views := by
  rcases getCurrentView_state_cases cfg now channel s with h | ⟨fid, h⟩
  · rw [h]
  · rw [h]

/-- getCurrentView never changes the override maps. -/
theorem getCurrentView_manualOverrides (cfg : Nat → List Nat) (now : DateTime)
    (channel : Nat) (s : VMState) :
    (getCurrentView cfg now channel s).2.1.manualOverrides = s.manualOverrides := by
  rcases getCurrentView_state_cases cfg now channel s with h | ⟨fid, h⟩
  · rw [h]
  · rw [h]

/-- getCurrentView never changes the activation timestamps. -/
theorem getCurrentView_viewActivationTime (cfg : Nat → List Nat) (now : DateTime)
    (channel : Nat) (s : VMState) :
    (getCurrentView cfg now channel s).2.1.viewActivationTime
      = s.viewActivationTime := by
  rcases getCurrentView_state_cases cfg now channel s with h | ⟨fid, h⟩
  · rw [h]
  · rw [h]

/-- getCurrentView never changes the rotation timers. -/
theorem getCurrentView_channelRotations (cfg : Nat → List Nat) (now : DateTime)
    (channel : Nat) (s : VMState) :
    (getCurrentView cfg now channel s).2.1.channelRotations
      = s.channelRotations := by
  rcases getCurrentView_state_cases cfg now channel s with h | ⟨fid, h⟩
  · rw [h]
  · rw [h]

/-- The rotation scheduling outcome only reads the views store and the
rotation timers. -/
theorem rotationsAfterScheduling_congr (cfg : Nat → List Nat) (now : DateTime)
    (viewId channel : Nat) {s t : VMState} (hviews : s.views = t.views)
    (hrot : s.channelRotations = t.channelRotations) :
    rotationsAfterScheduling cfg now viewId channel s =
      rotationsAfterScheduling cfg now viewId channel t := by
  unfold rotationsAfterScheduling
  rw [hviews, hrot, scheduledFilter_congr hviews now (cfg channel)]

/-- The pointer after getCurrentView, when the channel's current view is set,
exists and is a member: it is kept when overridden or scheduled, and
otherwise moves to the head of the eligible members if any exists. -/
theorem getCurrentView_pointer_current (cfg : Nat → List Nat) (now : DateTime)
    (channel : Nat) (s : VMState) {id : Nat} {v : View}
    (hcur : s.channelCurrentViews channel = some id)
    (hv : s.views id = some v) (hmem : id ∈ cfg channel) :
    (getCurrentView cfg now channel s).2.1.channelCurrentViews channel =
      (if ((match s.manualOverrides channel with
            | some oi => (alookup oi id).isSome
            | none => false) || isViewScheduled v now) then some id
       else match (scheduledFilter s now (cfg channel)).head? with
            | some fid => some fid
            | none => some id) := by
  simp only [getCurrentView]
  rw [hcur]
  dsimp only
  rw [hv]
  dsimp only
  rw [if_pos hmem]
  cases hov : (match s.manualOverrides channel with
      | some oi => (alookup oi id).isSome
      | none => false) with
  | true => simp [hcur]
  | false =>
    simp only [Bool.false_or, if_neg Bool.false_ne_true]
    cases hsch : isViewScheduled v now with
    | true => simp [hcur]
    | false =>
      simp only [if_neg Bool.false_ne_true]
      cases hsf : scheduledFilter s now (cfg channel) with
      | nil =>
        dsimp only
        simp [hcur]
      | cons f r =>
        dsimp only
        cases hv2 : s.views f with
        | some fv =>
          dsimp only
          simp [fupd_self]
        | none =>
          exfalso
          have hmem0 : f ∈ scheduledFilter s now (cfg channel) := by
            rw [hsf]
            exact List.mem_cons_self _ _
          rw [scheduledFilter_eq] at hmem0
          have hpred := (List.mem_filter.mp hmem0).2
          simp [hv2] at hpred

/-- The pointer after a successful setCurrentView, in terms of the
pre-state: the broadcast-internal getCurrentView keeps the freshly set view
when it is overridden (always when manually triggered) or scheduled, and
otherwise re-points the channel to the first eligible member if one
exists. -/
theorem setCurrentView_pointer (cfg : Nat → List Nat) (now : DateTime)
    (id channel : Nat) (man : Bool) (s : VMState) {v : View}
    (hv : s.views id = some v) (hmem : id ∈ cfg channel) :
    (setCurrentView cfg now id channel man s).2.1.channelCurrentViews channel =
      (if (man || (match s.manualOverrides channel with
                   | some oi => (alookup oi id).isSome
                   | none => false) || isViewScheduled v now) then some id
       else match (scheduledFilter s now (cfg channel)).head? with
            | some fid => some fid
            | none => some id) := by
  simp only [setCurrentView, hv, if_pos hmem]
  cases man with
  | false =>
    simp only [Bool.false_or]
    exact getCurrentView_pointer_current cfg now channel
      { s with
        viewActivationTime := fupd s.viewActivationTime channel
          (some (aset ((s.viewActivationTime channel).getD []) id now.ms)),
        channelCurrentViews := fupd s.channelCurrentViews channel (some id) }
      (fupd_self _ _ _) hv hmem
  | true =>
    have hlem := getCurrentView_pointer_current cfg now channel
      { s with
        viewActivationTime := fupd s.viewActivationTime channel
          (some (aset ((s.viewActivationTime channel).getD []) id now.ms)),
        manualOverrides := fupd s.manualOverrides channel
          (some (aset ((s.manualOverrides channel).getD []) id now.ms)),
        channelCurrentViews := fupd s.channelCurrentViews channel (some id) }
      (fupd_self _ _ _) hv hmem
    simp only [fupd_self, alookup_aset_self, Option.isSome_some, Bool.true_or] at hlem
    simp only [Bool.true_or]
    simp only [if_true] at hlem ⊢
    exact hlem

/-- Claim C1: getCurrentView returns exactly the view claim C1 describes —
the current view unconditionally when set, existing, a member and
overridden; the current view when additionally eligible; otherwise the first
existing, currently eligible member in configured order, or none (and, the
function being total, it never throws). -/
theorem getCurrentView_matches_claim (cfg : Nat → List Nat) (now : DateTime)
    (channel : Nat) (s : VMState) :
    (getCurrentView cfg now channel s).1 = specSelectView cfg now channel s := by
  have hfb : ∀ t : VMState, t.views = s.views →
      ((match scheduledFilter s now (cfg channel) with
        | [] => ((none : Option View), s, ([] : List VMEffect))
        | firstId :: _ =>
          match s.views firstId with
          | some firstView =>
            (some firstView,
             { s with channelCurrentViews := fupd s.channelCurrentViews channel (some firstId) },
             [])
          | none => (none, s, [])).1
        = (firstEligibleId cfg now channel s).bind s.views) := by
    intro t _
    have hhead := scheduledFilter_head cfg now channel s
    cases hsf : scheduledFilter s now (cfg channel) with
    | nil =>
      rw [hsf] at hhead
      rw [← hhead]
      rfl
    | cons firstId rest =>
      rw [hsf] at hhead
      rw [← hhead]
      cases hv : s.views firstId with
      | some fv => simp [hv]
      | none => simp [hv]
  simp only [getCurrentView, specSelectView]
  cases hcv : s.channelCurrentViews channel with
  | none =>
    dsimp only
    exact hfb s rfl
  | some vid =>
    dsimp only
    cases hv : s.views vid with
    | none =>
      dsimp only
      exact hfb s rfl
    | some v =>
      dsimp only
      by_cases hmem : vid ∈ cfg channel
      · simp only [if_pos hmem]
        cases hov : (match s.manualOverrides channel with
            | some oi => (alookup oi vid).isSome
            | none => false) with
        | true => simp
        | false =>
          simp only [if_neg Bool.false_ne_true]
          cases hsch : isViewScheduled v now with
          | true => simp
          | false =>
            simp only [if_neg Bool.false_ne_true]
            exact hfb s rfl
      · simp only [if_neg hmem]
        exact hfb s rfl

/-- Claim C10: getCurrentView emits no effects (no publish, no timer arming
or cancelling) and leaves views, overrides, activation times and rotation
timers untouched; and whenever it falls through to re-selection while an
eligible member exists, it moves the channel's current-view pointer to the
first such view. -/
theorem getCurrentView_frame (cfg : Nat → List Nat) (now : DateTime)
    (channel : Nat) (s : VMState) :
    (getCurrentView cfg now channel s).2.2 = [] ∧
    (getCurrentView cfg now channel s).2.1.views = s.views ∧
    (getCurrentView cfg now channel s).2.1.manualOverrides = s.manualOverrides ∧
    (getCurrentView cfg now channel s).2.1.viewActivationTime = s.viewActivationTime ∧
    (getCurrentView cfg now channel s).2.1.channelRotations = s.channelRotations ∧
    (fallsThrough cfg now channel s = true →
      ∀ firstId, firstEligibleId cfg now channel s = some firstId →
        (getCurrentView cfg now channel s).2.1.channelCurrentViews channel
          = some firstId) := by
  have hfall :
      ((match scheduledFilter s now (cfg channel) with
        | [] => ((none : Option View), s, ([] : List VMEffect))
        | firstId :: _ =>
          match s.views firstId with
          | some firstView =>
            (some firstView,
             { s with channelCurrentViews := fupd s.channelCurrentViews channel (some firstId) },
             [])
          | none => (none, s, [])).2.2 = []) ∧
      ((match scheduledFilter s now (cfg channel) with
        | [] => ((none : Option View), s, ([] : List VMEffect))
        | firstId :: _ =>
          match s.views firstId with
          | some firstView =>
            (some firstView,
             { s with channelCurrentViews := fupd s.channelCurrentViews channel (some firstId) },
             [])
          | none => (none, s, [])).2.1.views = s.views) ∧
      ((match scheduledFilter s now (cfg channel) with
        | [] => ((none : Option View), s, ([] : List VMEffect))
        | firstId :: _ =>
          match s.views firstId with
          | some firstView =>
            (some firstView,
             { s with channelCurrentViews := fupd s.channelCurrentViews channel (some firstId) },
             [])
          | none => (none, s, [])).2.1.manualOverrides = s.manualOverrides) ∧
      ((match scheduledFilter s now (cfg channel) with
        | [] => ((none : Option View), s, ([] : List VMEffect))
        | firstId :: _ =>
          match s.views firstId with
          | some firstView =>
            (some firstView,
             { s with channelCurrentViews := fupd s.channelCurrentViews channel (some firstId) },
             [])
          | none => (none, s, [])).2.1.viewActivationTime = s.viewActivationTime) ∧
      ((match scheduledFilter s now (cfg channel) with
        | [] => ((none : Option View), s, ([] : List VMEffect))
        | firstId :: _ =>
          match s.views firstId with
          | some firstView =>
            (some firstView,
             { s with channelCurrentViews := fupd s.channelCurrentViews channel (some firstId) },
             [])
          | none => (none, s, [])).2.1.channelRotations = s.channelRotations) ∧
      (∀ firstId, firstEligibleId cfg now channel s = some firstId →
        (match scheduledFilter s now (cfg channel) with
        | [] => ((none : Option View), s, ([] : List VMEffect))
        | firstId :: _ =>
          match s.views firstId with
          | some firstView =>
            (some firstView,
             { s with channelCurrentViews := fupd s.channelCurrentViews channel (some firstId) },
             [])
          | none => (none, s, [])).2.1.channelCurrentViews channel = some firstId) := by
    have hhead := scheduledFilter_head cfg now channel s
    cases hsf : scheduledFilter s now (cfg channel) with
    | nil =>
      rw [hsf] at hhead
      refine ⟨rfl, rfl, rfl, rfl, rfl, ?_⟩
      intro firstId hfid
      rw [← hhead] at hfid
      cases hfid
    | cons firstId0 rest =>
      rw [hsf] at hhead
      dsimp only
      cases hv2 : s.views firstId0 with
      | some fv =>
        dsimp only
        refine ⟨rfl, rfl, rfl, rfl, rfl, ?_⟩
        intro firstId hfid
        rw [← hhead] at hfid
        cases hfid
        exact fupd_self _ _ _
      | none =>
        exfalso
        have hmem0 : firstId0 ∈ scheduledFilter s now (cfg channel) := by
          rw [hsf]
          exact List.mem_cons_self _ _
        rw [scheduledFilter_eq] at hmem0
        have hpred := (List.mem_filter.mp hmem0).2
        simp [hv2] at hpred
  simp only [getCurrentView]
  cases hcv : s.channelCurrentViews channel with
  | none =>
    dsimp only
    refine ⟨hfall.1, hfall.2.1, hfall.2.2.1, hfall.2.2.2.1, hfall.2.2.2.2.1,
      fun _ => hfall.2.2.2.2.2⟩
  | some vid =>
    dsimp only
    cases hv : s.views vid with
    | none =>
      dsimp only
      refine ⟨hfall.1, hfall.2.1, hfall.2.2.1, hfall.2.2.2.1, hfall.2.2.2.2.1,
        fun _ => hfall.2.2.2.2.2⟩
    | some v =>
      dsimp only
      by_cases hmem : vid ∈ cfg channel
      · simp only [if_pos hmem]
        cases hov : (match s.manualOverrides channel with
            | some oi => (alookup oi vid).isSome
            | none => false) with
        | true =>
          refine ⟨rfl, rfl, rfl, rfl, rfl, ?_⟩
          intro hft
          simp [fallsThrough, hcv, hv, hmem, hov] at hft
        | false =>
          simp only [if_neg Bool.false_ne_true]
          cases hsch : isViewScheduled v now with
          | true =>
            refine ⟨rfl, rfl, rfl, rfl, rfl, ?_⟩
            intro hft
            simp [fallsThrough, hcv, hv, hmem, hov, hsch] at hft
          | false =>
            simp only [if_neg Bool.false_ne_true]
            refine ⟨hfall.1, hfall.2.1, hfall.2.2.1, hfall.2.2.2.1, hfall.2.2.2.2.1,
              fun _ => hfall.2.2.2.2.2⟩
      · simp only [if_neg hmem]
        refine ⟨hfall.1, hfall.2.1, hfall.2.2.1, hfall.2.2.2.1, hfall.2.2.2.2.1,
          fun _ => hfall.2.2.2.2.2⟩

/-- Witness for claim C10: on a state with no current view, getCurrentView
moves channel 0's pointer to the first eligible member, view 1. -/
theorem getCurrentView_frame_witness :
    (getCurrentView demoCfg demoNow 0 demoVMnoDelay).2.1.channelCurrentViews 0
      = some 1 :=
  (getCurrentView_frame demoCfg demoNow 0 demoVMnoDelay).2.2.2.2.2 rfl 1 rfl

/-- The rotation timer state of the channel after a successful
setCurrentView, in terms of the pre-state. -/
theorem setCurrentView_rotations (cfg : Nat → List Nat) (now : DateTime)
    (id channel : Nat) (man : Bool) (s : VMState) {v : View} {md : ViewMetadata}
    (hv : s.views id = some v) (hmd : v.metadata = some md)
    (hmem : id ∈ cfg channel) :
    (setCurrentView cfg now id channel man s).2.1.channelRotations channel =
      (match delayOf md with
       | none => (if (s.channelRotations channel).isSome then some none else none)
       | some delay =>
         if 0 < delay then
           if (scheduledFilter s now (cfg channel)).length ≤ 1 then
             (if (s.channelRotations channel).isSome then some none else none)
           else some (some (id, delay))
         else (if (s.channelRotations channel).isSome then some none else none)) := by
  simp only [setCurrentView, hv, if_pos hmem]
  cases man with
  | false =>
    refine Eq.trans ?_ (rotationsAfterScheduling_channel cfg now id channel s hv hmd)
    exact congrFun (rotationsAfterScheduling_congr cfg now id channel
      (Eq.trans (getCurrentView_views cfg now channel _) rfl)
      (Eq.trans (getCurrentView_channelRotations cfg now channel _) rfl)) channel
  | true =>
    refine Eq.trans ?_ (rotationsAfterScheduling_channel cfg now id channel s hv hmd)
    exact congrFun (rotationsAfterScheduling_congr cfg now id channel
      (Eq.trans (getCurrentView_views cfg now channel _) rfl)
      (Eq.trans (getCurrentView_channelRotations cfg now channel _) rfl)) channel

/-- Claim C7, counterexample: setCurrentView succeeds for view 1 of channel
0 (an existing member with no rotateAfter and no rotateAt), but instead of
re-arming the channel's rotation timer it clears the previously armed timer
and arms none; and setCurrentView for the existing member view 2 of channel
0, unscheduled at noon and not overridden, succeeds but does not leave the
current-view pointer at view 2: the synchronous start of the un-awaited
broadcast re-points the channel to the first eligible member, view 1. -/
theorem claimC7_counterexample :
    (setCurrentView demoCfg demoNow 1 0 false demoVMnoDelay).1 = Except.ok () ∧
    demoVMnoDelay.channelRotations 0 = some (some (2, 500)) ∧
    (setCurrentView demoCfg demoNow 1 0 false demoVMnoDelay).2.1.channelRotations 0
      = some none ∧
    (setCurrentView demoCfg demoNow 2 0 false demoVMrepoint).1 = Except.ok () ∧
    (setCurrentView demoCfg demoNow 2 0 false demoVMrepoint).2.1.channelCurrentViews 0
      = some 1 := by
  refine ⟨rfl, rfl, rfl, rfl, ?_⟩
  decide

/-- Claim C7 as amended: setCurrentView(viewId, channel, isManualTrigger)
raises synchronously exactly when the view does not exist or is not in the
channel's configured list, and then no state is modified and nothing is
published; on success it records an activation timestamp, adds the view to
the override map exactly when manually triggered, fires the broadcast and
leaves the view store untouched; the current-view pointer ends at the view
exactly when it is overridden (always when manually triggered) or currently
scheduled or no eligible member exists — otherwise the synchronous start of
the un-awaited broadcast immediately re-points the channel to the first
existing eligible member; and the rotation timer is re-armed exactly when
the view's metadata yields a positive delay and more than one existing
eligible member remains (otherwise any armed timer is cleared and none is
armed). -/
theorem claimC7_setCurrentView (cfg : Nat → List Nat) (now : DateTime)
    (id channel : Nat) (man : Bool) (s : VMState) :
    ((∃ e, (setCurrentView cfg now id channel man s).1 = Except.error e) ↔
      (s.views id = none ∨ id ∉ cfg channel)) ∧
    (∀ e, (setCurrentView cfg now id channel man s).1 = Except.error e →
      (setCurrentView cfg now id channel man s).2.1 = s ∧
      (setCurrentView cfg now id channel man s).2.2 = []) ∧
    ((setCurrentView cfg now id channel man s).1 = Except.ok () →
      (∃ act, (setCurrentView cfg now id channel man s).2.1.viewActivationTime channel
          = some act ∧ alookup act id = some now.ms) ∧
      (man = true →
        ∃ oi, (setCurrentView cfg now id channel man s).2.1.manualOverrides channel
          = some oi ∧ alookup oi id = some now.ms) ∧
      (man = false →
        (setCurrentView cfg now id channel man s).2.1.manualOverrides
          = s.manualOverrides) ∧
      (∀ v, s.views id = some v →
        (setCurrentView cfg now id channel man s).2.1.channelCurrentViews channel =
          (if (man || (match s.manualOverrides channel with
                       | some oi => (alookup oi id).isSome
                       | none => false) || isViewScheduled v now) then some id
           else match (scheduledFilter s now (cfg channel)).head? with
                | some fid => some fid
                | none => some id)) ∧
      ((setCurrentView cfg now id channel man s).2.2 = [VMEffect.broadcast channel]) ∧
      ((setCurrentView cfg now id channel man s).2.1.views = s.views) ∧
      (∀ v md, s.views id = some v → v.metadata = some md →
        (setCurrentView cfg now id channel man s).2.1.channelRotations channel =
          (match delayOf md with
           | none => (if (s.channelRotations channel).isSome then some none else none)
           | some delay =>
             if 0 < delay then
               if (scheduledFilter s now (cfg channel)).length ≤ 1 then
                 (if (s.channelRotations channel).isSome then some none else none)
               else some (some (id, delay))
             else (if (s.channelRotations channel).isSome then some none else none)))) := by
  refine ⟨⟨?_, ?_⟩, ?_, ?_⟩
  · rintro ⟨e, he⟩
    cases hv : s.views id with
    | none => exact Or.inl rfl
    | some v =>
      by_cases hmem : id ∈ cfg channel
      · exfalso
        cases man with
        | false => simp [setCurrentView, hv, hmem] at he
        | true => simp [setCurrentView, hv, hmem] at he
      · exact Or.inr hmem
  · intro h
    cases hv : s.views id with
    | none => exact ⟨VMError.viewDoesNotExist, by simp [setCurrentView, hv]⟩
    | some v =>
      rcases h with h1 | h2
      · rw [hv] at h1
        cases h1
      · exact ⟨VMError.viewNotInChannel, by simp [setCurrentView, hv, h2]⟩
  · intro e he
    cases hv : s.views id with
    | none =>
      exact ⟨by simp [setCurrentView, hv], by simp [setCurrentView, hv]⟩
    | some v =>
      by_cases hmem : id ∈ cfg channel
      · exfalso
        cases man with
        | false => simp [setCurrentView, hv, hmem] at he
        | true => simp [setCurrentView, hv, hmem] at he
      · exact ⟨by simp [setCurrentView, hv, hmem], by simp [setCurrentView, hv, hmem]⟩
  · intro hok
    cases hv : s.views id with
    | none => simp [setCurrentView, hv] at hok
    | some v =>
      by_cases hmem : id ∈ cfg channel
      · refine ⟨?_, ?_, ?_, ?_, ?_, ?_, ?_⟩
        · refine ⟨aset ((s.viewActivationTime channel).getD []) id now.ms, ?_,
            alookup_aset_self _ _ _⟩
          cases man with
          | false => simp [setCurrentView, hv, hmem, scheduleViewRotation,
              getCurrentView_viewActivationTime, fupd]
          | true => simp [setCurrentView, hv, hmem, scheduleViewRotation,
              getCurrentView_viewActivationTime, fupd]
        · intro hman
          subst hman
          refine ⟨aset ((s.manualOverrides channel).getD []) id now.ms, ?_,
            alookup_aset_self _ _ _⟩
          simp [setCurrentView, hv, hmem, scheduleViewRotation,
            getCurrentView_manualOverrides, fupd]
        · intro hman
          subst hman
          simp [setCurrentView, hv, hmem, scheduleViewRotation,
            getCurrentView_manualOverrides]
        · intro v2 hv2
          obtain rfl : v = v2 := Option.some.inj hv2
          exact setCurrentView_pointer cfg now id channel man s hv hmem
        · cases man with
          | false => simp [setCurrentView, hv, hmem]
          | true => simp [setCurrentView, hv, hmem]
        · cases man with
          | false => simp [setCurrentView, hv, hmem, scheduleViewRotation,
              getCurrentView_views]
          | true => simp [setCurrentView, hv, hmem, scheduleViewRotation,
              getCurrentView_views]
        · intro v2 md hv2 hmd
          obtain rfl : v = v2 := Option.some.inj hv2
          exact setCurrentView_rotations cfg now id channel man s hv hmd hmem
      · simp [setCurrentView, hv, hmem] at hok

/-- Witness for claim C7's amended statement: the successful concrete call of
the counterexample sets a still-scheduled view, so the pointer stays on it. -/
theorem claimC7_setCurrentView_witness :
    (setCurrentView demoCfg demoNow 1 0 false demoVMnoDelay).2.1.channelCurrentViews 0
      = some 1 := by
  have h := (((claimC7_setCurrentView demoCfg demoNow 1 0 false demoVMnoDelay).2.2)
    rfl).2.2.2.1 demoViewNoDelay rfl
  rw [h]
  decide

/-- Claim C2, counterexample: channel 0's current view 1 is manually
overridden and still eligible when its timer fires, and the scheduler does
keep it current without rotating, but it does not re-arm the timer for it:
only one eligible member remains, so the armed timer is cleared instead. -/
theorem claimC2_counterexample :
    demoVMoverride.channelCurrentViews 0 = some 1 ∧
    demoVMoverride.manualOverrides 0 = some [(1, 5)] ∧
    isViewScheduled demoViewA demoNow = true ∧
    demoVMoverride.channelRotations 0 = some (some (1, 1000)) ∧
    (onRotationFire demoCfg demoGal demoNow 1 0 demoVMoverride).1.channelCurrentViews 0
      = some 1 ∧
    (onRotationFire demoCfg demoGal demoNow 1 0 demoVMoverride).1.channelRotations 0
      = some none ∧
    (onRotationFire demoCfg demoGal demoNow 1 0 demoVMoverride).2 = [] := by
  refine ⟨rfl, rfl, rfl, rfl, rfl, ?_, rfl⟩
  decide

/-- Claim C2 as amended: when the timer for the channel's current, manually
overridden view fires, then if the Schedule Evaluator still reports the view
eligible the scheduler keeps it current, keeps its override, does not rotate,
and re-runs timer scheduling — which re-arms a timer for the view only when
it has a positive delay and more than one existing eligible member remains,
and otherwise clears any armed timer without re-arming; if the view is no
longer eligible, its override is removed and the scheduler proceeds to
rotate. -/
theorem claimC2_override_fire (cfg : Nat → List Nat) (gal : Nat → Nat)
    (now : DateTime) (viewId channel : Nat) (s : VMState) {v : View}
    {oi : List (Nat × Nat)}
    (hcur : s.channelCurrentViews channel = some viewId)
    (hoi : s.manualOverrides channel = some oi)
    (hov : (alookup oi viewId).isSome = true)
    (hv : s.views viewId = some v) :
    (isViewScheduled v now = true →
      onRotationFire cfg gal now viewId channel s =
        (scheduleViewRotation cfg now viewId channel s, []) ∧
      (onRotationFire cfg gal now viewId channel s).1.channelCurrentViews
        = s.channelCurrentViews ∧
      (onRotationFire cfg gal now viewId channel s).1.manualOverrides
        = s.manualOverrides ∧
      (∀ md, v.metadata = some md →
        (onRotationFire cfg gal now viewId channel s).1.channelRotations channel =
          (match delayOf md with
           | none => (if (s.channelRotations channel).isSome then some none else none)
           | some delay =>
             if 0 < delay then
               if (scheduledFilter s now (cfg channel)).length ≤ 1 then
                 (if (s.channelRotations channel).isSome then some none else none)
               else some (some (viewId, delay))
             else (if (s.channelRotations channel).isSome then some none else none)))) ∧
    (isViewScheduled v now = false →
      onRotationFire cfg gal now viewId channel s =
        rotateToNext cfg gal now channel viewId (removeOverride channel viewId s) ∧
      (∀ oi1, (removeOverride channel viewId s).manualOverrides channel = some oi1 →
        alookup oi1 viewId = none)) := by
  constructor
  · intro hsch
    have hred : onRotationFire cfg gal now viewId channel s =
        (scheduleViewRotation cfg now viewId channel s, []) := by
      simp [onRotationFire, hcur, hoi, hov, hv, hsch]
    refine ⟨hred, ?_, ?_, ?_⟩
    · rw [hred]
      rfl
    · rw [hred]
      rfl
    · intro md hmd
      rw [hred]
      exact rotationsAfterScheduling_channel cfg now viewId channel s hv hmd
  · intro hsch
    have hred : onRotationFire cfg gal now viewId channel s =
        rotateToNext cfg gal now channel viewId (removeOverride channel viewId s) := by
      simp [onRotationFire, hcur, hoi, hov, hv, hsch]
    exact ⟨hred, removeOverride_alookup channel viewId s⟩

/-- Witness for claim C2's amended statement: at the counterexample state the
fire of the overridden, still-eligible current view re-runs timer scheduling
and publishes nothing. -/
theorem claimC2_override_fire_witness :
    onRotationFire demoCfg demoGal demoNow 1 0 demoVMoverride =
      (scheduleViewRotation demoCfg demoNow 1 0 demoVMoverride, []) :=
  ((claimC2_override_fire demoCfg demoGal demoNow 1 0 demoVMoverride
    rfl rfl rfl rfl).1 rfl).1

end Redisplay